import Mathlib

/-!
Verification of the pcap2socks protocol core (src/lib.rs) against its
natural-language specification.

The Rust source is shallowly embedded: `u32` and `u16` values are `Nat`
with explicit bounds and explicit wrap formulas copied from the source
(`checked_add`/`checked_sub` with their `unwrap_or_else` arms), per-flow
state becomes explicit records, and frame emission becomes explicit
emission lists.  The `cache` (Queue/Window), `packet` and `lru` modules
are external to src/lib.rs; the small parts of them the claims need are
modelled from the specification and marked as such in their doc comments.
-/

namespace Pcap2Socks

/-- UPPER bound of `u32`, i.e. `u32::MAX` in the source. -/
def maxU32 : Nat := 4294967295

/-- Size of the 32-bit sequence space, `2^32`. -/
def u32Mod : Nat := 4294967296

/-- UPPER bound of `u16`, i.e. `u16::MAX` in the source. -/
def maxU16 : Nat := 65535

/-- Source constant `MAX_U32_WINDOW_SIZE = 16 * 1024 * 1024` (16 MiB plausibility window). -/
def MAX_U32_WINDOW_SIZE : Nat := 16777216

/-- Source constant `RTO = 3000` (ms). -/
def RTO : Nat := 3000

/-- Source constant `MINIMUM_PACKET_SIZE = 60`. -/
def MINIMUM_PACKET_SIZE : Nat := 60

/-- Source constant `DUPLICATES_BEFORE_FAST_RETRANSMISSION = 3`. -/
def DUPLICATES_BEFORE_FAST_RETRANSMISSION : Nat := 3

/-- Source constant `RETRANSMISSION_COOL_DOWN = 200` (ms). -/
def RETRANSMISSION_COOL_DOWN : Nat := 200

/-- Source constant `PORT_COUNT = 64`. -/
def PORT_COUNT : Nat := 64

/-- The wrapping-addition pattern used throughout src/lib.rs:
`a.checked_add(n).unwrap_or_else(|| n - (u32::MAX - a))`.
`checked_add` on `u32` fails exactly when `a + n > u32::MAX`. -/
def wrapAddSrc (a n : Nat) : Nat :=
  if a + n ≤ maxU32 then a + n else n - (maxU32 - a)

/-- The wrapping-subtraction pattern used throughout src/lib.rs:
`a.checked_sub(b).unwrap_or_else(|| a + (u32::MAX - b))`.
`checked_sub` on `u32` fails exactly when `b > a`. -/
def wrapSubSrc (a b : Nat) : Nat :=
  if b ≤ a then a - b else a + (maxU32 - b)

/-- Source function `disjoint_u32_range(main, sub)` (src/lib.rs lines 1044-1093),
translated clause by clause: the three `usize` differences are the wrapping
subtractions of the source, and the branch structure is identical. -/
def disjoint_u32_range (main sub : Nat × Nat) : List (Nat × Nat) :=
  let size_main := wrapSubSrc main.2 main.1
  let diff_first := wrapSubSrc sub.1 main.1
  let diff_second := wrapSubSrc sub.2 main.2
  if diff_first ≤ MAX_U32_WINDOW_SIZE then
    if diff_second > MAX_U32_WINDOW_SIZE then
      [(main.1, sub.1), (sub.2, main.2)]
    else
      if diff_first ≥ size_main then
        [(main.1, main.2)]
      else
        [(main.1, sub.1)]
  else
    if diff_second > MAX_U32_WINDOW_SIZE then
      let diff := wrapSubSrc sub.2 main.1
      if diff > MAX_U32_WINDOW_SIZE then
        [(main.1, main.2)]
      else
        [(sub.2, main.2)]
    else
      []

/-- The fold in `retransmit_tcp_ack_without` (src/lib.rs lines 444-457): subtract
each SACK range in turn from every range found so far. -/
def subtractSacks (main : Nat × Nat) (sacks : List (Nat × Nat)) : List (Nat × Nat) :=
  sacks.foldl (fun ranges sack => ranges.flatMap (fun r => disjoint_u32_range r sack)) [main]

/-- Modelled from the spec: the send-side retransmission cache `cache::Queue`
(spec 4.1), whose source is not under src/.  A byte window whose left edge is
labelled with a 32-bit sequence; bytes are stored as contiguous segments, each
stamped with the instant it was appended (instants are modelled as `Nat`
milliseconds).  `data` is the byte content, left to right. -/
structure Queue where
  sequence : Nat
  segs : List (List Nat × Nat)
  capacity : Nat
deriving DecidableEq, Repr

/-- Byte content of the cache from left edge to right edge. -/
def Queue.data (q : Queue) : List Nat := (q.segs.map Prod.fst).flatten

/-- Modelled from the spec: `Queue::len`. -/
def Queue.len (q : Queue) : Nat := q.data.length

/-- Modelled from the spec: `Queue::is_empty`. -/
def Queue.isEmpty (q : Queue) : Bool := q.len == 0

/-- Modelled from the spec: `Queue::append(bytes)` stamps the segment with the
current instant and extends the right edge; it fails if the remaining capacity
is smaller than the payload. -/
def Queue.append (q : Queue) (payload : List Nat) (now : Nat) : Except Unit Queue :=
  if q.capacity - q.len < payload.length then Except.error ()
  else Except.ok { q with segs := q.segs ++ [(payload, now)] }

/-- Modelled from the spec: `Queue::get(sequence, size)` slices anywhere inside
the window and fails if the requested range is out of range; the offset of
`sequence` from the left edge is taken modulo 2^32. -/
def Queue.get (q : Queue) (sequence size : Nat) : Except Unit (List Nat) :=
  let offset := (sequence + u32Mod - q.sequence % u32Mod) % u32Mod
  if offset + size ≤ q.len then Except.ok ((q.data.drop offset).take size)
  else Except.error ()

/-- Modelled from the spec: `Queue::get_timed_out(rto)` returns all bytes whose
stamp is older than `rto`, contiguous from the left edge, and resets their
stamps to now. -/
def Queue.getTimedOut (q : Queue) (now rto : Nat) : List Nat × Queue :=
  let timedOut := q.segs.takeWhile (fun s => rto ≤ now - s.2)
  let rest := q.segs.dropWhile (fun s => rto ≤ now - s.2)
  ((timedOut.map Prod.fst).flatten,
   { q with segs := timedOut.map (fun s => (s.1, now)) ++ rest })

/-- Source method `Forwarder::add_tcp_acknowledgement` (src/lib.rs lines 210-224):
the stored value (`or_insert(0)` supplies 0 when absent) becomes
`entry.checked_add(n).unwrap_or_else(|| n - (u32::MAX - *entry))`. -/
def add_tcp_acknowledgement (entry n : Nat) : Nat := wrapAddSrc entry n

/-- Source function `Forwarder::retransmit_tcp_ack_without` (src/lib.rs lines
426-493), translated statement by statement over the modelled cache.  Instead of
handing each slice to `send_tcp_ack_raw`, the model records the pairs
`(sequence, payload)` that are handed to it, in order; the claim is about which
bytes are resent, and `send_tcp_ack_raw` only segments its input. -/
def retransmit_tcp_ack_without (cache : Queue) (sacks : List (Nat × Nat)) :
    Except Unit (List (Nat × List Nat)) := do
  let sequence := cache.sequence
  let size := cache.len
  let recv_next := wrapAddSrc sequence size
  let ranges := subtractSacks (sequence, recv_next) sacks
  let (sequence, size) :=
    match ranges.getLast? with
    | some range =>
        let last_recv_next := range.2
        (last_recv_next,
         if last_recv_next ≤ recv_next then recv_next - last_recv_next
         else sequence + (maxU32 - last_recv_next))
    | none => (sequence, size)
  let mut sent : List (Nat × List Nat) := []
  for range in ranges do
    let rangeSize := wrapSubSrc range.2 range.1
    let payload ← cache.get range.1 rangeSize
    if payload.length > 0 then
      sent := sent ++ [(range.1, payload)]
  let payload ← cache.get sequence size
  if payload.length > 0 then
    sent := sent ++ [(sequence, payload)]
  return sent

/-- Frames the Forwarder emits for one TCP flow, reduced to what the claims
observe: data segments (with their sequence number and payload), FIN, bare ACK
and RST packets.  Header fields that no claim mentions (acknowledgement,
window, options) are not carried. -/
inductive Emis where
  | seg (sequence : Nat) (payload : List Nat)
  | fin (sequence : Nat)
  | ack0 (sequence : Nat)
  | rst (sequence : Nat)
deriving DecidableEq, Repr

/-- Does the emission carry the FIN flag toward the client? -/
def Emis.isFin : Emis → Bool
  | Emis.fin _ => true
  | _ => false

/-- Number of FIN packets in an emission list. -/
def countFin (out : List Emis) : Nat := (out.filter Emis.isFin).length

/-- Send-side state of one TCP flow inside the `Forwarder` (src/lib.rs lines
98-117): the per-flow entries of the maps keyed by this flow's key.  A map
without an entry for the key is `none` (for `cache`/`queue`) or the
`unwrap_or` default used by the source at every read (0 for `send_window`,
`sequence` and `wscale`).  `fin` is `tcp_fin_map.contains_key`.  The
`acknowledgement`, `window`, `sacks` and `ts` maps only fill header fields no
claim observes and are left out. -/
structure FlowSt where
  mtu : Nat
  sendWindow : Nat
  sendMss : Option Nat
  sequence : Nat
  wscale : Nat
  fin : Bool
  cache : Option Queue
  queue : Option (List Nat)
deriving DecidableEq, Repr

/-- Modelled from the spec: `ipv4.len() + tcp.len()` of the option-free pseudo
headers built in `send_tcp_ack_raw`; the IPv4 and TCP serializers live in the
external `packet` module, whose plain headers are 20 bytes each. -/
def pseudoHeaderSize : Nat := 40

/-- The `max_payload_size` computation of `send_tcp_ack_raw` (src/lib.rs lines
619-625) with `PREFER_SEND_MSS = true`: the peer's MSS when known, otherwise
MTU minus the header sizes. -/
def max_payload_size (st : FlowSt) : Nat :=
  match st.sendMss with
  | some mss => mss
  | none => st.mtu - pseudoHeaderSize

/-- The segmentation loop of `send_tcp_ack_raw` (src/lib.rs lines 626-661).
`rem` is the part of the payload not yet emitted, `i` the loop counter, `base`
the `sequence` argument of the call.  Each chunk is emitted at
`base + i * max_payload_size` (with the source's wrap formula) and then the
recorded flow sequence advances to the chunk's end, but only when that advance
from the recorded sequence is within `MAX_U32_WINDOW_SIZE`.  A zero
`max_payload_size` would loop forever in the source; the model returns. -/
def sendSegsAux (st : FlowSt) (maxP base : Nat) (rem : List Nat) (i : Nat) :
    FlowSt × List Emis :=
  if h : maxP = 0 ∨ rem = [] then (st, [])
  else
    let chunk := rem.take maxP
    let sequence := wrapAddSrc base (i * maxP)
    let next_sequence := wrapAddSrc sequence chunk.length
    let record_sequence := st.sequence
    let sub_sequence := wrapSubSrc next_sequence record_sequence
    let st1 := if sub_sequence ≤ MAX_U32_WINDOW_SIZE
      then { st with sequence := next_sequence } else st
    let rest := sendSegsAux st1 maxP base (rem.drop maxP) (i + 1)
    (rest.1, Emis.seg sequence chunk :: rest.2)
termination_by rem.length
decreasing_by
  simp only [not_or] at h
  have : rem.length ≠ 0 := by simpa using fun hnil => h.2 (by simpa using hnil)
  simp [List.length_drop]
  omega

/-- Source method `Forwarder::send_tcp_ack_raw` (src/lib.rs lines 596-664),
reduced to its segmentation loop; the header construction and the IPv4/Ethernet
wrapping are emission-side effects carried by `Emis.seg`. -/
def send_tcp_ack_raw (st : FlowSt) (sequence : Nat) (payload : List Nat) :
    FlowSt × List Emis :=
  sendSegsAux st (max_payload_size st) sequence payload 0

/-- Is the flow's queue empty in the sense of `send_tcp_ack` (src/lib.rs lines
579-582): an absent queue counts as empty. -/
def queueEmptyB (st : FlowSt) : Bool :=
  match st.queue with
  | some q => q.isEmpty
  | none => true

/-- Is the flow's cache empty in the sense of `send_tcp_ack` (src/lib.rs lines
583-586): an absent cache counts as empty. -/
def cacheEmptyB (st : FlowSt) : Bool :=
  match st.cache with
  | some c => c.isEmpty
  | none => true

/-- The queue-draining half of `Forwarder::send_tcp_ack` (src/lib.rs lines
546-575).  The third component is `false` when the source would have returned
early with the `cache.append` error (the bytes drained from the queue before
the failure stay drained, as under `&mut self`). -/
def send_tcp_ack_drain (st : FlowSt) (now : Nat) : FlowSt × List Emis × Bool :=
  match st.queue with
  | none => (st, [], true)
  | some q =>
    let window := st.sendWindow
    if window > 0 then
      let sequence := st.sequence
      let wscale := st.wscale
      let cache := match st.cache with
        | some c => c
        | none => { sequence := sequence, segs := [], capacity := maxU16 <<< wscale }
      let st0 := { st with cache := some cache }
      let sent_size := cache.len
      let remain_size := min (window - sent_size) maxU16
      let size := min remain_size q.length
      if size > 0 then
        let payload := q.take size
        let st1 := { st0 with queue := some (q.drop size) }
        match cache.append payload now with
        | Except.error _ => (st1, [], false)
        | Except.ok cache1 =>
          let st2 := { st1 with cache := some cache1 }
          let res := send_tcp_ack_raw st2 sequence payload
          (res.1, res.2, true)
      else (st0, [], true)
    else (st, [], true)

/-- Source method `Forwarder::send_tcp_ack` (src/lib.rs lines 544-594): drain
the queue toward the cache and the wire, then emit a FIN if the flow is
closing and both the queue and the cache are empty. -/
def send_tcp_ack (st : FlowSt) (now : Nat) : FlowSt × List Emis × Bool :=
  match send_tcp_ack_drain st now with
  | (st1, out, false) => (st1, out, false)
  | (st1, out, true) =>
    if st1.fin && queueEmptyB st1 && cacheEmptyB st1 then
      (st1, out ++ [Emis.fin st1.sequence], true)
    else (st1, out, true)

/-- Source method `Forwarder::retransmit_tcp_ack_timedout` (src/lib.rs lines
497-541): resend the timed-out prefix of the cache, or, when nothing is cached,
re-emit the FIN of a closing drained flow. -/
def retransmit_tcp_ack_timedout (st : FlowSt) (now : Nat) : FlowSt × List Emis :=
  let res :=
    match st.cache with
    | some c =>
      let t0 := c.getTimedOut now RTO
      (t0.1, c.sequence, { st with cache := some t0.2 })
    | none => (([] : List Nat), 0, st)
  match res with
  | (payload, sequence, st1) =>
    if payload.length > 0 then
      send_tcp_ack_raw st1 sequence payload
    else
      if st1.fin && queueEmptyB st1 && cacheEmptyB st1 then
        (st1, [Emis.fin st1.sequence])
      else (st1, [])

/-- Source method `ForwardStream::close` for `Forwarder` (src/lib.rs lines
1029-1035): record the closing instant in `tcp_fin_map`, then `send_tcp_ack`. -/
def forwardStreamClose (st : FlowSt) (now : Nat) : FlowSt × List Emis × Bool :=
  send_tcp_ack { st with fin := true } now

/-- Source method `Forwarder::send_tcp_rst` (src/lib.rs lines 756-780): builds
a stateless RST from the per-flow maps (all reads use `unwrap_or` defaults) and
sends it; it writes no map. -/
def send_tcp_rst (st : FlowSt) : FlowSt × List Emis :=
  (st, [Emis.rst st.sequence])

/-- Receive-side state of one TCP flow inside the `Redirector` (src/lib.rs
lines 1112-1132): the per-flow entries of `tcp_acknowledgement_map` (the last
peer ACK seen, `unwrap_or 0`), `tcp_duplicate_map` (`unwrap_or 0`),
`tcp_last_retransmission_map` (absent = `none`; instants are `Nat`
milliseconds) and `tcp_sack_perm_map` (`unwrap_or false`). -/
structure RdrFlowSt where
  storedAck : Nat
  dup : Nat
  lastRetransmission : Option Nat
  sackPerm : Bool
deriving DecidableEq, Repr

/-- Which retransmission a fast retransmit performs (src/lib.rs lines
1456-1475): selective via `retransmit_tcp_ack_without`, or go-back-N via
`retransmit_tcp_ack`. -/
inductive RetransKind where
  | selective
  | goBackN
deriving DecidableEq, Repr

/-- The fields of a received bare-ACK segment that the duplicate-ACK path of
`handle_tcp_ack` reads: the ACK number, `tcp.is_zero_window()`, `tcp.sack()`
(absent = `[]`), whether the flow's stream worker is still writable, and the
Forwarder's `get_cache_size` for the flow (cache length plus queue length). -/
structure BareAck where
  acknowledgement : Nat
  isZeroWindow : Bool
  sacks : List (Nat × Nat)
  isWritable : Bool
  forwarderCacheSize : Nat
deriving DecidableEq, Repr

/-- Source method `Redirector::update_tcp_acknowledgement` (src/lib.rs lines
1749-1783): a zero modular delta counts a duplicate, a delta within
`MAX_U32_WINDOW_SIZE` stores the new ACK and resets the duplicate count, and a
larger delta (a regression) is ignored. -/
def update_tcp_acknowledgement (st : RdrFlowSt) (acknowledgement : Nat) : RdrFlowSt :=
  let sub_acknowledgement := wrapSubSrc acknowledgement st.storedAck
  if sub_acknowledgement = 0 then { st with dup := st.dup + 1 }
  else if sub_acknowledgement ≤ MAX_U32_WINDOW_SIZE then
    { st with storedAck := acknowledgement, dup := 0 }
  else st

/-- Has `RETRANSMISSION_COOL_DOWN` elapsed since the recorded last fast
retransmit?  This is the negation of the source's `is_cooled_down` (src/lib.rs
lines 1449-1454): with no record the retransmit is allowed. -/
def cooldownElapsed (last : Option Nat) (now : Nat) : Bool :=
  match last with
  | some instant => RETRANSMISSION_COOL_DOWN ≤ now - instant
  | none => true

/-- The bare-ACK path of `Redirector::handle_tcp_ack` (src/lib.rs lines 1335
and 1435-1481): update the stored ACK and duplicate count, tear the flow down
on LAST_ACK (writer closed and nothing left to send), otherwise fast
retransmit when three duplicates have been seen, the ACK does not advertise a
zero window, and the cool-down has elapsed.  Returns the new per-flow state,
the retransmission performed (if any) and whether the flow was torn down.
The payload-carrying ACK path (reassembly and delivery) is outside this
model. -/
def handle_tcp_bare_ack (st : RdrFlowSt) (e : BareAck) (now : Nat) :
    RdrFlowSt × Option RetransKind × Bool :=
  let st1 := update_tcp_acknowledgement st e.acknowledgement
  if !e.isWritable && e.forwarderCacheSize == 0 then
    (st1, none, true)
  else if DUPLICATES_BEFORE_FAST_RETRANSMISSION ≤ st1.dup then
    if !e.isZeroWindow then
      if cooldownElapsed st1.lastRetransmission now then
        let kind := if st1.sackPerm && decide (0 < e.sacks.length)
          then RetransKind.selective else RetransKind.goBackN
        ({ st1 with dup := 0, lastRetransmission := some now }, some kind, false)
      else (st1, none, false)
    else (st1, none, false)
  else (st1, none, false)

/-- Runs a sequence of timestamped bare ACKs on one flow, collecting the times
at which a fast retransmit fires; the run stops if the flow is torn down. -/
def runBareAcks (st : RdrFlowSt) : List (Nat × BareAck) → List Nat
  | [] => []
  | (now, e) :: rest =>
    match handle_tcp_bare_ack st e now with
    | (st1, some _, _) => now :: runBareAcks st1 rest
    | (_, none, true) => []
    | (st1, none, false) => runBareAcks st1 rest

/-- The four handlers `handle_tcp` can descend into. -/
inductive TcpHandler where
  | hRst
  | hAck
  | hSyn
  | hFin
  | hNone
deriving DecidableEq, Repr

/-- Source method `Redirector::handle_tcp` (src/lib.rs lines 1297-1313): flag
dispatch with the source's if/else-if order RST, ACK, SYN, FIN. -/
def handle_tcp_dispatch (isRst isAck isSyn isFin : Bool) : TcpHandler :=
  if isRst then TcpHandler.hRst
  else if isAck then TcpHandler.hAck
  else if isSyn then TcpHandler.hSyn
  else if isFin then TcpHandler.hFin
  else TcpHandler.hNone

/-- Outcome of `handle_tcp_ack` at its top split (src/lib.rs lines 1319-1325
and 1491-1494): with no stream for the flow key, the segment elicits a
stateless `send_tcp_rst` and nothing else happens; with a stream, the stateful
path runs (its bare-ACK slice is `handle_tcp_bare_ack`). -/
inductive AckResult where
  | statefulStep (st : RdrFlowSt) (retransmit : Option RetransKind) (teardown : Bool)
  | statelessRst
deriving DecidableEq, Repr

/-- Source method `Redirector::handle_tcp_ack` (src/lib.rs lines 1315-1498)
restricted to bare ACKs: `streams` is the set of flow keys with a live
`StreamWorker`. -/
def handle_tcp_ack_model (streams : List Nat) (key : Nat) (st : RdrFlowSt)
    (e : BareAck) (now : Nat) : AckResult :=
  if streams.contains key then
    match handle_tcp_bare_ack st e now with
    | (st1, k, td) => AckResult.statefulStep st1 k td
  else AckResult.statelessRst

/-- Lookup in an association list with the default 0 used by the source: the
`datagram_map` direct array maps a source port to a local port, value 0
meaning unbound (src/lib.rs lines 1127-1128). -/
def dmapGet (m : List (Nat × Nat)) (k : Nat) : Nat :=
  match m.find? (fun p => p.1 == k) with
  | some p => p.2
  | none => 0

/-- Point update of the association-list view of `datagram_map`. -/
def dmapSet (m : List (Nat × Nat)) (k v : Nat) : List (Nat × Nat) :=
  (k, v) :: m.filter (fun p => p.1 != k)

/-- Modelled from the spec: the `lru` crate's `LruCache::get`, which promotes a
present key to most-recently-used.  The cache is a list of key-value pairs,
most recent first. -/
def lruTouch (lru : List (Nat × Nat)) (k : Nat) : List (Nat × Nat) :=
  match lru.find? (fun p => p.1 == k) with
  | some p => p :: lru.filter (fun q => q.1 != k)
  | none => lru

/-- Modelled from the spec: `LruCache::put`, which inserts or updates a key at
most-recently-used position and drops the least-recently-used entry if the
capacity is exceeded. -/
def lruPut (lru : List (Nat × Nat)) (k v cap : Nat) : List (Nat × Nat) :=
  let l1 := (k, v) :: lru.filter (fun q => q.1 != k)
  if cap < l1.length then l1.take cap else l1

/-- Modelled from the spec: `LruCache::pop_lru`, which removes and returns the
least-recently-used entry. -/
def lruPopLru (lru : List (Nat × Nat)) : Option ((Nat × Nat) × List (Nat × Nat)) :=
  match lru.getLast? with
  | some p => some (p, lru.dropLast)
  | none => none

/-- The UDP NAT state of the `Redirector` (src/lib.rs lines 1126-1130):
`datagramMap` is the direct source-port-to-local-port view, `udpLru` the
LRU-ordered local-port-to-source-port view (capacity `PORT_COUNT`). -/
structure UdpNatSt where
  datagramMap : List (Nat × Nat)
  udpLru : List (Nat × Nat)
deriving DecidableEq, Repr

/-- Source method `Redirector::get_local_udp_port` (src/lib.rs lines
1828-1862): return the existing binding (touching the LRU), 0 when a fresh
bind is needed and the LRU is not full, and otherwise evict the
least-recently-used pair and reuse its local port for the new source port,
unbinding the previous source port. -/
def get_local_udp_port (st : UdpNatSt) (src_port : Nat) : UdpNatSt × Nat :=
  let local_port := dmapGet st.datagramMap src_port
  if local_port = 0 then
    if st.udpLru.length < PORT_COUNT then (st, 0)
    else
      match lruPopLru st.udpLru with
      | none => (st, 0)
      | some (pair, rest) =>
        let localPort := pair.1
        let prevSrcPort := pair.2
        let m1 := if prevSrcPort ≠ 0 then dmapSet st.datagramMap prevSrcPort 0
                  else st.datagramMap
        let m2 := dmapSet m1 src_port localPort
        ({ datagramMap := m2, udpLru := lruPut rest localPort src_port PORT_COUNT },
         localPort)
  else
    ({ st with udpLru := lruTouch st.udpLru local_port }, local_port)

/-- The observable fields of a `DatagramWorker` that `handle_udp` reads:
`src_port()` and `is_closed()`. -/
structure WorkerInfo where
  srcPort : Nat
  closed : Bool
deriving DecidableEq, Repr

/-- What the binding part of `handle_udp` did for a datagram. -/
inductive UdpAction where
  | bindFresh (localPort : Nat)
  | rebind (localPort : Nat)
  | reuseAsIs (localPort : Nat)
deriving DecidableEq, Repr

/-- Rebind the worker at `port` to a new source port, as
`datagrams.get_mut(&port).unwrap().set_src_port(...)` does. -/
def workersSetSrc (ws : List (Nat × WorkerInfo)) (port src_port : Nat) :
    List (Nat × WorkerInfo) :=
  ws.map (fun p => if p.1 == port then (p.1, { p.2 with srcPort := src_port }) else p)

/-- The binding part of `Redirector::handle_udp` (src/lib.rs lines 1699-1733):
resolve the local port via `get_local_udp_port`; bind a fresh worker when no
port is bound or the worker died (the fresh local port chosen by
`DatagramWorker::bind` is the parameter `freshPort`), rebind the live worker
when its source port differs, and reuse it as is otherwise.  `none` models the
source's `unwrap` panic when a bound port has no worker. -/
def handle_udp_bind (st : UdpNatSt) (workers : List (Nat × WorkerInfo))
    (src_port freshPort : Nat) :
    Option (UdpNatSt × UdpAction × List (Nat × WorkerInfo)) :=
  let r := get_local_udp_port st src_port
  let st1 := r.1
  let port := r.2
  if port = 0 then
    some ({ datagramMap := dmapSet st1.datagramMap src_port freshPort,
            udpLru := lruPut st1.udpLru freshPort src_port PORT_COUNT },
          UdpAction.bindFresh freshPort,
          (freshPort, { srcPort := src_port, closed := false })
            :: workers.filter (fun p => p.1 != freshPort))
  else
    match workers.find? (fun p => p.1 == port) with
    | none => none
    | some pw =>
      if pw.2.closed then
        some ({ datagramMap := dmapSet st1.datagramMap src_port freshPort,
                udpLru := lruPut st1.udpLru freshPort src_port PORT_COUNT },
              UdpAction.bindFresh freshPort,
              (freshPort, { srcPort := src_port, closed := false })
                :: workers.filter (fun p => p.1 != freshPort))
      else if pw.2.srcPort ≠ src_port then
        some (st1, UdpAction.rebind port, workersSetSrc workers port src_port)
      else
        some (st1, UdpAction.reuseAsIs port, workers)

/-- Per-destination IPv4 identification state of the `Forwarder`
(`ipv4_identification_map`, src/lib.rs line 105), as an association list from
destination address to identification. -/
structure EmitSt where
  ipv4IdentificationMap : List (Nat × Nat)
deriving DecidableEq, Repr

/-- The `*map.get(&dst).unwrap_or(&0)` read used at every IPv4 emission site. -/
def idGet (st : EmitSt) (dst : Nat) : Nat := dmapGet st.ipv4IdentificationMap dst

/-- Source method `Forwarder::increase_ipv4_identification` (src/lib.rs lines
162-166): `entry.checked_add(1).unwrap_or(0)` on the `u16` entry
(`or_insert(0)` supplies 0 when absent). -/
def increase_ipv4_identification (st : EmitSt) (dst : Nat) : EmitSt :=
  let entry := idGet st dst
  { ipv4IdentificationMap :=
      dmapSet st.ipv4IdentificationMap dst (if entry + 1 ≤ maxU16 then entry + 1 else 0) }

/-- Frames the IPv4/ARP emission layer hands to the capture driver, reduced to
what claim C8 observes: destination, identification and fragment flags of IPv4
datagrams, and ARP replies. -/
inductive IpEmis where
  | ipv4 (dst identification : Nat) (moreFragment : Bool) (fragmentOffset : Nat)
  | arp
deriving DecidableEq, Repr

/-- Source method `Forwarder::send_ipv4_with_transport` (src/lib.rs lines
931-960): emit one non-fragmented datagram carrying the current
identification, then bump the identification. -/
def send_ipv4_with_transport (st : EmitSt) (dst : Nat) : EmitSt × List IpEmis :=
  (increase_ipv4_identification st dst, [IpEmis.ipv4 dst (idGet st dst) false 0])

/-- Source method `Forwarder::send_ipv4_more_fragment` (src/lib.rs lines
874-903): emit one more-fragments datagram carrying the current
identification; the identification is not bumped. -/
def send_ipv4_more_fragment (st : EmitSt) (dst offset : Nat) : EmitSt × List IpEmis :=
  (st, [IpEmis.ipv4 dst (idGet st dst) true offset])

/-- Source method `Forwarder::send_ipv4_last_fragment` (src/lib.rs lines
905-929): emit the last fragment carrying the current identification, then
bump the identification. -/
def send_ipv4_last_fragment (st : EmitSt) (dst offset : Nat) : EmitSt × List IpEmis :=
  (increase_ipv4_identification st dst, [IpEmis.ipv4 dst (idGet st dst) false offset])

/-- Source method `Forwarder::send_arp_reply` (src/lib.rs lines 350-368): the
ARP reply goes through `send` directly and touches no identification. -/
def send_arp_reply (st : EmitSt) : EmitSt × List IpEmis :=
  (st, [IpEmis.arp])

/-- The `length`/`remain` computation of one `send_udp` loop iteration
(src/lib.rs lines 812-824) before the 8-byte reservation for the last
fragment: `remain` after the 8-byte alignment of a non-final piece.  The IPv4
header of the pseudo layer is 20 bytes (the source's `ipv4.len()`, from the
external packet module). -/
def udpPieceRemain (mtu size n : Nat) : Nat :=
  let length0 := min (size - n) (mtu - 20)
  let length1 := if 0 < size - n - length0 then length0 / 8 * 8 else length0
  size - n - length1

/-- The final piece length of one `send_udp` loop iteration (src/lib.rs lines
812-824): the aligned length, shortened by 8 bytes when fewer than 8 bytes
would remain for the last fragment. -/
def udpPieceLen (mtu size n : Nat) : Nat :=
  let length0 := min (size - n) (mtu - 20)
  let length1 := if 0 < size - n - length0 then length0 / 8 * 8 else length0
  let remain1 := size - n - length1
  if 0 < remain1 ∧ remain1 < 8 then length1 - 8 else length1

/-- The fragmentation loop of `Forwarder::send_udp` (src/lib.rs lines
809-862), over the total size `size = udp_header + payload` and the running
offset `n`.  The first piece carries the UDP header layer (or goes out
unfragmented via `send_udp_raw` when nothing remains); later pieces are
continuations, the final one a last-fragment.  A zero piece length would loop
forever in the source (only possible for an MTU below 28); the model
returns. -/
def send_udp_loop (st : EmitSt) (dst mtu size n : Nat) : EmitSt × List IpEmis :=
  if h : n < size then
    let length2 := udpPieceLen mtu size n
    if hz : length2 = 0 then (st, [])
    else
      let step :=
        if n = 0 then
          if 0 < udpPieceRemain mtu size n then send_ipv4_more_fragment st dst (n / 8)
          else send_ipv4_with_transport st dst
        else
          if 0 < udpPieceRemain mtu size n then send_ipv4_more_fragment st dst (n / 8)
          else send_ipv4_last_fragment st dst (n / 8)
      let rest := send_udp_loop step.1 dst mtu size (n + length2)
      (rest.1, step.2 ++ rest.2)
  else (st, [])
termination_by size - n
decreasing_by
  unfold length2 at hz
  omega

/-- Source method `Forwarder::send_udp` (src/lib.rs lines 800-865): fragment
`udp_header_size + payload.len()` bytes; the UDP header is 8 bytes (the
source's `udp.len()`, from the external packet module). -/
def send_udp (st : EmitSt) (dst mtu payloadLen : Nat) : EmitSt × List IpEmis :=
  send_udp_loop st dst mtu (8 + payloadLen) 0

/-- Source method `Forwarder::send` (src/lib.rs lines 986-998): the serialized
frame is written into a zeroed buffer of `max(size, MINIMUM_PACKET_SIZE)`
bytes and the whole buffer is handed to the capture driver. -/
def send_serialize (bytes : List Nat) : List Nat :=
  let size := bytes.length
  let buffer_size := max size MINIMUM_PACKET_SIZE
  bytes ++ List.replicate (buffer_size - size) 0

/-- Source method `Forwarder::send_with_payload` (src/lib.rs lines 1000-1017):
headers and payload are written into a zeroed buffer of
`max(size + payload.len(), MINIMUM_PACKET_SIZE)` bytes and the whole buffer is
handed to the capture driver. -/
def send_with_payload_serialize (bytes payload : List Nat) : List Nat :=
  let size := bytes.length + payload.length
  let buffer_size := max size MINIMUM_PACKET_SIZE
  bytes ++ payload ++ List.replicate (buffer_size - size) 0

theorem countFin_append (a b : List Emis) : countFin (a ++ b) = countFin a + countFin b := by
  simp [countFin, List.filter_append]

theorem countFin_nil : countFin [] = 0 := rfl

theorem countFin_cons_seg (s : Nat) (p : List Nat) (l : List Emis) :
    countFin (Emis.seg s p :: l) = countFin l := by
  simp [countFin, Emis.isFin]

theorem sendSegsAux_bounded (n : Nat) : ∀ (rem : List Nat), rem.length ≤ n →
    ∀ (st : FlowSt) (maxP base i : Nat),
    countFin (sendSegsAux st maxP base rem i).2 = 0 ∧
    (sendSegsAux st maxP base rem i).1.fin = st.fin ∧
    (sendSegsAux st maxP base rem i).1.queue = st.queue ∧
    (sendSegsAux st maxP base rem i).1.cache = st.cache := by
  induction n with
  | zero =>
      intro rem hlen st maxP base i
      have hrem : rem = [] := by
        cases rem with
        | nil => rfl
        | cons a l => simp at hlen
      rw [sendSegsAux]
      simp [hrem, countFin]
  | succ n ihn =>
      intro rem hlen st maxP base i
      rw [sendSegsAux]
      by_cases h : maxP = 0 ∨ rem = []
      · simp [h, countFin]
      · simp only [dif_neg h, countFin_cons_seg]
        have hlen2 : (rem.drop maxP).length ≤ n := by
          simp only [not_or] at h
          have h1 : 0 < maxP := Nat.pos_of_ne_zero h.1
          have h2 : 0 < rem.length := List.length_pos.mpr h.2
          simp only [List.length_drop]
          omega
        rcases ihn (rem.drop maxP) hlen2
          (if wrapSubSrc (wrapAddSrc (wrapAddSrc base (i * maxP)) (List.take maxP rem).length)
                st.sequence ≤ MAX_U32_WINDOW_SIZE
           then { st with sequence :=
                    wrapAddSrc (wrapAddSrc base (i * maxP)) (List.take maxP rem).length }
           else st) maxP base (i + 1) with ⟨j1, j2, j3, j4⟩
        refine ⟨j1, ?_, ?_, ?_⟩
        · rw [j2]; split <;> rfl
        · rw [j3]; split <;> rfl
        · rw [j4]; split <;> rfl

theorem sendSegsAux_countFin (st : FlowSt) (maxP base : Nat) (rem : List Nat) (i : Nat) :
    countFin (sendSegsAux st maxP base rem i).2 = 0 :=
  (sendSegsAux_bounded rem.length rem (le_refl _) st maxP base i).1

theorem sendSegsAux_preserves (st : FlowSt) (maxP base : Nat) (rem : List Nat) (i : Nat) :
    (sendSegsAux st maxP base rem i).1.fin = st.fin ∧
    (sendSegsAux st maxP base rem i).1.queue = st.queue ∧
    (sendSegsAux st maxP base rem i).1.cache = st.cache :=
  (sendSegsAux_bounded rem.length rem (le_refl _) st maxP base i).2

theorem getTimedOut_preserves_data (q : Queue) (now rto : Nat) :
    (q.getTimedOut now rto).2.data = q.data ∧
    (q.getTimedOut now rto).2.sequence = q.sequence ∧
    (q.getTimedOut now rto).2.isEmpty = q.isEmpty ∧
    ((q.getTimedOut now rto).1.length ≤ q.data.length) := by
  have hdata : (q.getTimedOut now rto).2.data = q.data := by
    simp only [Queue.getTimedOut, Queue.data, List.map_append, List.map_map]
    have hcomp : (Prod.fst ∘ fun s : List Nat × Nat => (s.1, now)) = Prod.fst := by
      funext s
      rfl
    rw [hcomp, ← List.map_append, List.takeWhile_append_dropWhile]
  refine ⟨hdata, rfl, ?_, ?_⟩
  · simp [Queue.isEmpty, Queue.len, hdata]
  · simp only [Queue.getTimedOut, Queue.data]
    have := List.takeWhile_append_dropWhile
      (p := fun s : List Nat × Nat => decide (rto ≤ now - s.2)) (l := q.segs)
    calc ((q.segs.takeWhile fun s => rto ≤ now - s.2).map Prod.fst).flatten.length
        ≤ ((q.segs.takeWhile fun s => rto ≤ now - s.2).map Prod.fst).flatten.length +
          ((q.segs.dropWhile fun s => rto ≤ now - s.2).map Prod.fst).flatten.length := by omega
      _ = q.data.length := by
          rw [← List.length_append, ← List.flatten_append, ← List.map_append, this]
          rfl

theorem send_tcp_ack_drain_spec (st : FlowSt) (now : Nat) :
    countFin (send_tcp_ack_drain st now).2.1 = 0 ∧
    (send_tcp_ack_drain st now).1.fin = st.fin := by
  rcases hq : st.queue with _ | q
  · simp [send_tcp_ack_drain, hq, countFin]
  · rcases hcache : st.cache with _ | c <;>
      { simp only [send_tcp_ack_drain, hq, hcache]
        split
        · split
          · split
            · simp [countFin]
            · simp [send_tcp_ack_raw, sendSegsAux_countFin, (sendSegsAux_preserves _ _ _ _ _).1]
          · simp [countFin]
        · simp [countFin] }

/-- C2 counterexample state: a freshly established flow with nothing queued
and nothing cached. -/
def c2FlowSt : FlowSt :=
  { mtu := 1500, sendWindow := 65535, sendMss := some 1460, sequence := 1000,
    wscale := 0, fin := false, cache := none, queue := none }

/-- The emissions of the lifetime slice in which the SOCKS worker half-closes
the drained flow (`ForwardStream::close`) and then ticks once
(`retransmit_tcp_ack_timedout`). -/
def c2Emissions : List Emis :=
  (forwardStreamClose c2FlowSt 0).2.1 ++
    (retransmit_tcp_ack_timedout (forwardStreamClose c2FlowSt 0).1 1).2

/-- C2 counterexample: on a drained closing flow, `close` emits a FIN and the
very next `tick` re-emits it (`retransmit_tcp_ack_timedout`, the deliberate
FIN retransmission at src/lib.rs lines 521-537), so two FINs are emitted
toward the client over the flow's lifetime: the FIN is not emitted at most
once. -/
theorem fin_emitted_twice : ¬ (countFin c2Emissions ≤ 1) := by decide

/-- C2 amended: in every call of `send_tcp_ack` and of
`retransmit_tcp_ack_timedout`, a FIN is emitted toward the client exactly when
the flow is closing (`fin` set) and both the send queue and the
retransmission cache are empty at that moment (and the drain did not fail),
and then exactly one FIN is emitted; a FIN may however be re-emitted by later
calls while the flow stays drained (FIN retransmission), so it is not emitted
at most once per flow lifetime. -/
theorem fin_only_when_queue_and_cache_empty (st : FlowSt) (now : Nat) :
    (countFin (send_tcp_ack st now).2.1 =
      if ((send_tcp_ack st now).2.2 && st.fin && queueEmptyB (send_tcp_ack st now).1 &&
          cacheEmptyB (send_tcp_ack st now).1) = true then 1 else 0) ∧
    (countFin (retransmit_tcp_ack_timedout st now).2 =
      if (st.fin && queueEmptyB (retransmit_tcp_ack_timedout st now).1 &&
          cacheEmptyB (retransmit_tcp_ack_timedout st now).1) = true then 1 else 0) := by
  constructor
  · rcases hd : send_tcp_ack_drain st now with ⟨st1, out, ok⟩
    have hspec := send_tcp_ack_drain_spec st now
    rw [hd] at hspec
    obtain ⟨hcf, hfin⟩ := hspec
    simp only at hcf hfin
    cases ok with
    | false => simp [send_tcp_ack, hd, hcf]
    | true =>
        simp only [send_tcp_ack, hd]
        by_cases hc : (st1.fin && queueEmptyB st1 && cacheEmptyB st1) = true
        · rw [if_pos hc]
          show countFin (out ++ [Emis.fin st1.sequence]) =
            if (true && st.fin && queueEmptyB st1 && cacheEmptyB st1) = true then 1 else 0
          have hcond : (true && st.fin && queueEmptyB st1 && cacheEmptyB st1) = true := by
            rw [Bool.true_and, ← hfin]
            exact hc
          rw [if_pos hcond, countFin_append, hcf]
          rfl
        · rw [if_neg hc]
          show countFin out =
            if (true && st.fin && queueEmptyB st1 && cacheEmptyB st1) = true then 1 else 0
          have hcond : ¬ (true && st.fin && queueEmptyB st1 && cacheEmptyB st1) = true := by
            rw [Bool.true_and, ← hfin]
            exact hc
          rw [if_neg hcond]
          exact hcf
  · rcases hcc : st.cache with _ | c
    · by_cases hfq : (st.fin && queueEmptyB st && cacheEmptyB st) = true
      · simp [retransmit_tcp_ack_timedout, hcc, hfq, countFin, Emis.isFin]
      · simp [retransmit_tcp_ack_timedout, hcc, hfq, countFin]
    · have hpres := getTimedOut_preserves_data c now RTO
      rcases hgt : c.getTimedOut now RTO with ⟨payload, c1⟩
      rw [hgt] at hpres
      simp only at hpres
      obtain ⟨hdata, hseq, hemp, hlen⟩ := hpres
      simp only [retransmit_tcp_ack_timedout, hcc, hgt]
      by_cases hp : payload.length > 0
      · rw [if_pos hp]
        have h0 : countFin (send_tcp_ack_raw { st with cache := some c1 }
            c.sequence payload).2 = 0 := sendSegsAux_countFin _ _ _ _ _
        have hcE : cacheEmptyB (send_tcp_ack_raw { st with cache := some c1 }
            c.sequence payload).1 = false := by
          have hq3 := (sendSegsAux_preserves { st with cache := some c1 }
            (max_payload_size { st with cache := some c1 }) c.sequence payload 0).2.2
          have hq4 : (sendSegsAux { st with cache := some c1 }
              (max_payload_size { st with cache := some c1 })
              c.sequence payload 0).1.cache = some c1 := by
            simpa using hq3
          show cacheEmptyB (sendSegsAux { st with cache := some c1 }
            (max_payload_size { st with cache := some c1 }) c.sequence payload 0).1 = false
          simp only [cacheEmptyB, hq4]
          rw [hemp]
          simp only [Queue.isEmpty, Queue.len]
          have hnz : c.data.length ≠ 0 := by omega
          simpa using hnz
        rw [h0, hcE]
        simp
      · rw [if_neg hp]
        by_cases hfq : (st.fin && queueEmptyB { st with cache := some c1 } &&
            cacheEmptyB { st with cache := some c1 }) = true
        · simp [hfq, countFin, Emis.isFin]
        · simp [hfq, countFin]

/-- C3: the overflow arm of the sequence-space addition in
`add_tcp_acknowledgement` (and the identical formula advancing `sequence` in
`send_tcp_ack_raw`) is `n - (u32::MAX - entry)`, which at `entry = 2^32 - 1`,
`n = 1` yields 1 while `(entry + n) mod 2^32 = 0`: the wrap is off by one
whenever the 32-bit addition overflows. -/
theorem add_tcp_acknowledgement_wrap_off_by_one :
    add_tcp_acknowledgement 4294967295 1 = 1 ∧
    (4294967295 + 1) % u32Mod = 0 ∧
    wrapAddSrc 4294967295 1 = 1 ∧
    add_tcp_acknowledgement 4294967290 10 = 5 ∧
    (4294967290 + 10) % u32Mod = 4 := by
  decide

/-- C1: evaluated on a 10-byte cache `[0, 10)` whose whole extent is covered
by the single peer SACK `[0, 10)`, `retransmit_tcp_ack_without` resends all
ten cached bytes (the trailing `cache.get(sequence, size)` call is reached
with the original left edge and length), where the claim requires it to emit
nothing; and with the tail SACK `[7, 10)` it resends the SACK-covered bytes
7..9 in addition to the bytes 0..6 it should resend. -/
theorem retransmit_tcp_ack_without_resends_sacked_bytes :
    retransmit_tcp_ack_without ⟨0, [(List.range 10, 0)], 16⟩ [(0, 10)] =
      Except.ok [(0, List.range 10)] ∧
    retransmit_tcp_ack_without ⟨0, [(List.range 10, 0)], 16⟩ [(7, 10)] =
      Except.ok [(0, [0, 1, 2, 3, 4, 5, 6]), (7, [7, 8, 9])] := by
  constructor <;> rfl

/-- C9: every frame handed to the capture driver by `send` or
`send_with_payload` is the serialized content zero-padded to a buffer of
`max(serialized size, MINIMUM_PACKET_SIZE)` bytes, hence at least 60 bytes
long. -/
theorem emitted_frame_min_size (bytes payload : List Nat) :
    MINIMUM_PACKET_SIZE ≤ (send_serialize bytes).length ∧
    (send_serialize bytes).length = max bytes.length MINIMUM_PACKET_SIZE ∧
    (send_serialize bytes).take bytes.length = bytes ∧
    (send_serialize bytes).drop bytes.length =
      List.replicate (max bytes.length MINIMUM_PACKET_SIZE - bytes.length) 0 ∧
    MINIMUM_PACKET_SIZE ≤ (send_with_payload_serialize bytes payload).length ∧
    (send_with_payload_serialize bytes payload).length =
      max (bytes.length + payload.length) MINIMUM_PACKET_SIZE ∧
    (send_with_payload_serialize bytes payload).take (bytes.length + payload.length) =
      bytes ++ payload := by
  refine ⟨?_, ?_, ?_, ?_, ?_, ?_, ?_⟩
  · simp only [send_serialize, List.length_append, List.length_replicate]
    omega
  · simp only [send_serialize, List.length_append, List.length_replicate]
    omega
  · simp only [send_serialize]
    exact List.take_left _ _
  · simp only [send_serialize]
    exact List.drop_left _ _
  · simp only [send_with_payload_serialize, List.length_append, List.length_replicate]
    omega
  · simp only [send_with_payload_serialize, List.length_append, List.length_replicate]
    omega
  · simp only [send_with_payload_serialize, ← List.append_assoc]
    rw [show bytes.length + payload.length = (bytes ++ payload).length from
      (List.length_append _ _).symm]
    exact List.take_left _ _

/-- C10: `handle_tcp` dispatches by strict precedence RST, ACK, SYN, FIN; a
segment with ACK set (and RST clear) always descends into `handle_tcp_ack`
and never into `handle_tcp_syn`, and for a flow key with no live stream
`handle_tcp_ack` answers with the stateless `send_tcp_rst`, which emits a
single RST and changes no per-flow state. -/
theorem tcp_dispatch_ack_precedence (isSyn isFin a s f : Bool) (streams : List Nat)
    (key : Nat) (fwdSt : FlowSt) (st : RdrFlowSt) (e : BareAck) (now : Nat)
    (hnoflow : streams.contains key = false) :
    handle_tcp_dispatch true a s f = TcpHandler.hRst ∧
    handle_tcp_dispatch false true isSyn isFin = TcpHandler.hAck ∧
    handle_tcp_dispatch false true isSyn isFin ≠ TcpHandler.hSyn ∧
    handle_tcp_dispatch false false true isFin = TcpHandler.hSyn ∧
    handle_tcp_dispatch false false false true = TcpHandler.hFin ∧
    handle_tcp_ack_model streams key st e now = AckResult.statelessRst ∧
    (send_tcp_rst fwdSt).1 = fwdSt ∧
    (send_tcp_rst fwdSt).2 = [Emis.rst fwdSt.sequence] := by
  unfold handle_tcp_dispatch handle_tcp_ack_model send_tcp_rst
  simp_all

/-- Witness for `tcp_dispatch_ack_precedence` at a concrete SYN+ACK segment
whose key has no stream. -/
theorem tcp_dispatch_ack_precedence_witness :
    (([] : List Nat).contains 7 = false) ∧
    handle_tcp_dispatch false true true false = TcpHandler.hAck ∧
    handle_tcp_ack_model [] 7 ⟨0, 0, none, false⟩ ⟨0, false, [], true, 0⟩ 0 =
      AckResult.statelessRst :=
  ⟨by decide,
   (tcp_dispatch_ack_precedence true false false false false [] 7
      ⟨1500, 0, none, 0, 0, false, none, none⟩ ⟨0, 0, none, false⟩
      ⟨0, false, [], true, 0⟩ 0 (by decide)).2.1,
   (tcp_dispatch_ack_precedence true false false false false [] 7
      ⟨1500, 0, none, 0, 0, false, none, none⟩ ⟨0, 0, none, false⟩
      ⟨0, false, [], true, 0⟩ 0 (by decide)).2.2.2.2.2.1⟩

theorem update_tcp_acknowledgement_preserves (st : RdrFlowSt) (a : Nat) :
    (update_tcp_acknowledgement st a).lastRetransmission = st.lastRetransmission ∧
    (update_tcp_acknowledgement st a).sackPerm = st.sackPerm := by
  refine ⟨?_, ?_⟩ <;>
    · simp only [update_tcp_acknowledgement]
      split
      · rfl
      · split <;> rfl

theorem bare_ack_fire_conditions (st : RdrFlowSt) (e : BareAck) (now : Nat) (k : RetransKind)
    (hfire : (handle_tcp_bare_ack st e now).2.1 = some k) :
    DUPLICATES_BEFORE_FAST_RETRANSMISSION ≤ (update_tcp_acknowledgement st e.acknowledgement).dup ∧
    e.isZeroWindow = false ∧
    cooldownElapsed st.lastRetransmission now = true ∧
    (handle_tcp_bare_ack st e now).1.lastRetransmission = some now := by
  have hlr := (update_tcp_acknowledgement_preserves st e.acknowledgement).1
  simp only [handle_tcp_bare_ack] at hfire ⊢
  repeat' split at hfire
  all_goals try simp_all
  all_goals repeat' split
  all_goals first
    | omega
    | (simp_all; done)
    | (simp_all; omega)

theorem bare_ack_no_fire_preserves (st : RdrFlowSt) (e : BareAck) (now : Nat)
    (hnone : (handle_tcp_bare_ack st e now).2.1 = none) :
    (handle_tcp_bare_ack st e now).1.lastRetransmission = st.lastRetransmission := by
  have hlr := (update_tcp_acknowledgement_preserves st e.acknowledgement).1
  simp only [handle_tcp_bare_ack] at hnone ⊢
  repeat' split at hnone
  all_goals try simp_all
  all_goals repeat' split
  all_goals first
    | omega
    | (simp_all; done)
    | (simp_all; omega)

theorem runBareAcks_gap (evts : List (Nat × BareAck)) : ∀ (st : RdrFlowSt) (t : Nat),
    st.lastRetransmission = some t →
    (∀ p ∈ evts, t ≤ p.1) →
    List.Pairwise (· ≤ ·) (evts.map Prod.fst) →
    ∀ r ∈ runBareAcks st evts, t + RETRANSMISSION_COOL_DOWN ≤ r := by
  induction evts with
  | nil =>
      intro st t _ _ _ r hr
      simp [runBareAcks] at hr
  | cons p rest ih =>
      rcases p with ⟨now, e⟩
      intro st t hlr hall hpw r hr
      have hnow : t ≤ now := hall (now, e) (List.mem_cons_self _ _)
      have hallrest : ∀ q ∈ rest, now ≤ q.1 := by
        rw [List.map_cons, List.pairwise_cons] at hpw
        intro q hq
        exact hpw.1 q.1 (List.mem_map_of_mem Prod.fst hq)
      have hpwrest : List.Pairwise (· ≤ ·) (rest.map Prod.fst) := by
        rw [List.map_cons, List.pairwise_cons] at hpw
        exact hpw.2
      rw [runBareAcks] at hr
      rcases hres : handle_tcp_bare_ack st e now with ⟨st1, ret, td⟩
      rw [hres] at hr
      cases ret with
      | some k =>
          rcases List.mem_cons.mp hr with h1 | h2
          · have hc := bare_ack_fire_conditions st e now k (by rw [hres])
            rw [hlr] at hc
            have h200 : RETRANSMISSION_COOL_DOWN ≤ now - t := by
              simpa [cooldownElapsed] using hc.2.2.1
            omega
          · have hlr1 : st1.lastRetransmission = some now := by
              have := (bare_ack_fire_conditions st e now k (by rw [hres])).2.2.2
              rw [hres] at this
              exact this
            have := ih st1 now hlr1 hallrest hpwrest r h2
            omega
      | none =>
          cases td with
          | true => simp at hr
          | false =>
              have hlr1 : st1.lastRetransmission = some t := by
                have := bare_ack_no_fire_preserves st e now (by rw [hres])
                rw [hres] at this
                rw [this, hlr]
              exact ih st1 t hlr1
                (fun q hq => hall q (List.mem_cons_of_mem _ hq)) hpwrest r hr

theorem runBareAcks_pairwise (evts : List (Nat × BareAck)) : ∀ (st : RdrFlowSt),
    List.Pairwise (· ≤ ·) (evts.map Prod.fst) →
    List.Pairwise (fun a b => a + RETRANSMISSION_COOL_DOWN ≤ b) (runBareAcks st evts) := by
  induction evts with
  | nil =>
      intro st _
      simp [runBareAcks]
  | cons p rest ih =>
      rcases p with ⟨now, e⟩
      intro st hpw
      rw [List.map_cons, List.pairwise_cons] at hpw
      obtain ⟨hhead, htail⟩ := hpw
      have hallrest : ∀ q ∈ rest, now ≤ q.1 := fun q hq =>
        hhead q.1 (List.mem_map_of_mem Prod.fst hq)
      rw [runBareAcks]
      rcases hres : handle_tcp_bare_ack st e now with ⟨st1, ret, td⟩
      cases ret with
      | some k =>
          rw [List.pairwise_cons]
          constructor
          · intro r hr
            have hlr1 : st1.lastRetransmission = some now := by
              have := (bare_ack_fire_conditions st e now k (by rw [hres])).2.2.2
              rw [hres] at this
              exact this
            exact runBareAcks_gap rest st1 now hlr1 hallrest htail r hr
          · exact ih st1 htail
      | none =>
          cases td with
          | true => simp
          | false => exact ih st1 htail

/-- C6: a fast retransmit fires in `handle_tcp_ack` only when the
duplicate-ACK count after processing the arriving ACK has reached
`DUPLICATES_BEFORE_FAST_RETRANSMISSION = 3`, the ACK does not advertise a zero
window (so a zero-window ACK with three duplicates triggers none), and
`RETRANSMISSION_COOL_DOWN = 200` ms have elapsed since the flow's last fast
retransmit; consequently, over any run of bare ACKs with nondecreasing
arrival times, any two fast retransmits on one flow are separated by at least
200 ms. -/
theorem fast_retransmit_gating (st st2 : RdrFlowSt) (e : BareAck) (now : Nat)
    (k : RetransKind) (evts : List (Nat × BareAck))
    (hfire : (handle_tcp_bare_ack st e now).2.1 = some k)
    (hmono : List.Pairwise (· ≤ ·) (evts.map Prod.fst)) :
    DUPLICATES_BEFORE_FAST_RETRANSMISSION ≤
      (update_tcp_acknowledgement st e.acknowledgement).dup ∧
    e.isZeroWindow = false ∧
    cooldownElapsed st.lastRetransmission now = true ∧
    List.Pairwise (fun a b => a + RETRANSMISSION_COOL_DOWN ≤ b) (runBareAcks st2 evts) := by
  have hc := bare_ack_fire_conditions st e now k hfire
  exact ⟨hc.1, hc.2.1, hc.2.2.1, runBareAcks_pairwise evts st2 hmono⟩

/-- Witness for `fast_retransmit_gating`: a concrete duplicate-ACK burst that
fires a go-back-N retransmit, and a concrete six-ACK trace whose two fast
retransmits happen at times 3 and 300. -/
theorem fast_retransmit_gating_witness :
    ((handle_tcp_bare_ack ⟨5, 2, none, false⟩ ⟨5, false, [], true, 1⟩ 0).2.1 =
      some RetransKind.goBackN) ∧
    List.Pairwise (· ≤ ·)
      (([(1, ⟨7, false, [], true, 1⟩), (2, ⟨7, false, [], true, 1⟩),
         (3, ⟨7, false, [], true, 1⟩), (100, ⟨7, false, [], true, 1⟩),
         (150, ⟨7, false, [], true, 1⟩), (300, ⟨7, false, [], true, 1⟩)] :
        List (Nat × BareAck)).map Prod.fst) ∧
    runBareAcks ⟨7, 0, none, false⟩
      [(1, ⟨7, false, [], true, 1⟩), (2, ⟨7, false, [], true, 1⟩),
       (3, ⟨7, false, [], true, 1⟩), (100, ⟨7, false, [], true, 1⟩),
       (150, ⟨7, false, [], true, 1⟩), (300, ⟨7, false, [], true, 1⟩)] = [3, 300] ∧
    cooldownElapsed (some 3) 300 = true ∧
    List.Pairwise (fun a b => a + RETRANSMISSION_COOL_DOWN ≤ b)
      (runBareAcks ⟨7, 0, none, false⟩
        [(1, ⟨7, false, [], true, 1⟩), (2, ⟨7, false, [], true, 1⟩),
         (3, ⟨7, false, [], true, 1⟩), (100, ⟨7, false, [], true, 1⟩),
         (150, ⟨7, false, [], true, 1⟩), (300, ⟨7, false, [], true, 1⟩)]) :=
  ⟨by decide, by decide, by decide, by decide,
   (fast_retransmit_gating ⟨5, 2, none, false⟩ ⟨7, 0, none, false⟩
      ⟨5, false, [], true, 1⟩ 0 RetransKind.goBackN
      [(1, ⟨7, false, [], true, 1⟩), (2, ⟨7, false, [], true, 1⟩),
       (3, ⟨7, false, [], true, 1⟩), (100, ⟨7, false, [], true, 1⟩),
       (150, ⟨7, false, [], true, 1⟩), (300, ⟨7, false, [], true, 1⟩)]
      (by decide) (by decide)).2.2.2⟩

theorem dmapGet_set_self (m : List (Nat × Nat)) (k v : Nat) :
    dmapGet (dmapSet m k v) k = v := by
  simp [dmapGet, dmapSet]

theorem find?_filter_ne (m : List (Nat × Nat)) (k k2 : Nat) (h : k2 ≠ k) :
    (m.filter (fun p => p.1 != k)).find? (fun p => p.1 == k2) =
      m.find? (fun p => p.1 == k2) := by
  induction m with
  | nil => simp
  | cons p rest ih =>
      by_cases hp : p.1 = k
      · have hkk2 : (k == k2) = false := by simp [Ne.symm h]
        simp [List.filter_cons, hp, List.find?_cons, hkk2, ih]
      · by_cases hp2 : p.1 = k2
        · simp [List.filter_cons, hp, List.find?_cons, hp2, h]
        · simp [List.filter_cons, hp, List.find?_cons, hp2, ih]

theorem dmapGet_set_other (m : List (Nat × Nat)) (k v k2 : Nat) (h : k2 ≠ k) :
    dmapGet (dmapSet m k v) k2 = dmapGet m k2 := by
  simp only [dmapGet, dmapSet, List.find?_cons]
  have hne : ((k, v).1 == k2) = false := by simp [Ne.symm h]
  rw [hne]
  rw [find?_filter_ne m k k2 h]

theorem dropLast_keys_ne (lru : List (Nat × Nat)) (localPort prevSrc : Nat)
    (hlast : lru.getLast? = some (localPort, prevSrc))
    (hnodup : (lru.map Prod.fst).Nodup) :
    ∀ q ∈ lru.dropLast, (q.1 != localPort) = true := by
  intro q hq
  have hne : lru ≠ [] := by
    intro hnil
    rw [hnil] at hlast
    simp at hlast
  have hg : lru.getLast hne = (localPort, prevSrc) := by
    have hx := List.getLast?_eq_getLast lru hne
    rw [hlast] at hx
    exact (Option.some_inj.mp hx).symm
  have hsplit : lru.dropLast ++ [(localPort, prevSrc)] = lru := by
    rw [← hg]
    exact List.dropLast_append_getLast hne
  have hmap : (lru.dropLast.map Prod.fst) ++ [localPort] = lru.map Prod.fst := by
    conv_rhs => rw [← hsplit]
    simp
  rw [← hmap, List.nodup_append] at hnodup
  have hq1 : q.1 ∈ lru.dropLast.map Prod.fst := List.mem_map_of_mem Prod.fst hq
  have hne2 : q.1 ∉ [localPort] := fun hmem => hnodup.2.2 hq1 hmem
  simp only [List.mem_singleton] at hne2
  simpa using hne2

theorem get_local_udp_port_evict (st : UdpNatSt) (src_port localPort prevSrc : Nat)
    (h1 : st.udpLru.length = PORT_COUNT)
    (h2 : dmapGet st.datagramMap src_port = 0)
    (h3 : st.udpLru.getLast? = some (localPort, prevSrc))
    (h4 : prevSrc ≠ 0) :
    get_local_udp_port st src_port =
      ({ datagramMap := dmapSet (dmapSet st.datagramMap prevSrc 0) src_port localPort,
         udpLru := lruPut st.udpLru.dropLast localPort src_port PORT_COUNT }, localPort) := by
  simp [get_local_udp_port, lruPopLru, h1, h2, h3, h4]

/-- C7: with the UDP NAT LRU at its capacity `PORT_COUNT = 64` and a datagram
arriving from an unbound source port, the least-recently-used
`(local_port, src_port)` pair is evicted: the freed local port is returned and
bound to the new source port, the previous source port's entry in the direct
map is reset to 0, the pair `(local_port, new src_port)` becomes
most-recently-used with the LRU staying at 64 entries, and `handle_udp` reuses
the live datagram worker on that local port by rebinding its source port;
when instead the LRU is not yet full and the source port is unbound,
`get_local_udp_port` returns 0 and `handle_udp` binds a fresh local port. -/
theorem udp_nat_lru_eviction (st : UdpNatSt) (workers : List (Nat × WorkerInfo))
    (src_port freshPort localPort prevSrc wsrc : Nat)
    (st2 : UdpNatSt) (workers2 : List (Nat × WorkerInfo)) (src2 fresh2 : Nat)
    (h1 : st.udpLru.length = PORT_COUNT)
    (h2 : dmapGet st.datagramMap src_port = 0)
    (h3 : st.udpLru.getLast? = some (localPort, prevSrc))
    (h4 : prevSrc ≠ 0)
    (h5 : prevSrc ≠ src_port)
    (h6 : localPort ≠ 0)
    (h7 : workers.find? (fun p => p.1 == localPort) =
      some (localPort, { srcPort := wsrc, closed := false }))
    (h8 : wsrc ≠ src_port)
    (h9 : (st.udpLru.map Prod.fst).Nodup)
    (hA : dmapGet st2.datagramMap src2 = 0)
    (hB : st2.udpLru.length < PORT_COUNT) :
    (get_local_udp_port st src_port).2 = localPort ∧
    dmapGet (get_local_udp_port st src_port).1.datagramMap src_port = localPort ∧
    dmapGet (get_local_udp_port st src_port).1.datagramMap prevSrc = 0 ∧
    (get_local_udp_port st src_port).1.udpLru.head? = some (localPort, src_port) ∧
    (get_local_udp_port st src_port).1.udpLru.length = PORT_COUNT ∧
    handle_udp_bind st workers src_port freshPort =
      some ((get_local_udp_port st src_port).1, UdpAction.rebind localPort,
            workersSetSrc workers localPort src_port) ∧
    (get_local_udp_port st2 src2).2 = 0 ∧
    handle_udp_bind st2 workers2 src2 fresh2 =
      some ({ datagramMap := dmapSet st2.datagramMap src2 fresh2,
              udpLru := lruPut st2.udpLru fresh2 src2 PORT_COUNT },
            UdpAction.bindFresh fresh2,
            (fresh2, { srcPort := src2, closed := false })
              :: workers2.filter (fun p => p.1 != fresh2)) := by
  have hev := get_local_udp_port_evict st src_port localPort prevSrc h1 h2 h3 h4
  have hrestlen : st.udpLru.dropLast.length = PORT_COUNT - 1 := by
    rw [List.length_dropLast, h1]
  have hfilter : st.udpLru.dropLast.filter (fun q => q.1 != localPort) =
      st.udpLru.dropLast :=
    List.filter_eq_self.mpr (dropLast_keys_ne st.udpLru localPort prevSrc h3 h9)
  have hput : lruPut st.udpLru.dropLast localPort src_port PORT_COUNT =
      (localPort, src_port) :: st.udpLru.dropLast := by
    unfold lruPut
    rw [hfilter]
    have hlen : ((localPort, src_port) :: st.udpLru.dropLast).length = PORT_COUNT := by
      simp [hrestlen, PORT_COUNT]
    rw [if_neg (by omega)]
  refine ⟨?_, ?_, ?_, ?_, ?_, ?_, ?_, ?_⟩
  · rw [hev]
  · rw [hev]
    exact dmapGet_set_self _ _ _
  · rw [hev]
    simp only
    rw [dmapGet_set_other _ _ _ _ h5.symm.symm]
    · exact dmapGet_set_self _ _ _
  · rw [hev]
    simp only [hput]
    rfl
  · rw [hev]
    simp only [hput]
    simp [hrestlen, PORT_COUNT]
  · unfold handle_udp_bind
    rw [hev]
    simp only [if_neg h6, h7]
    simp [h8]
  · simp [get_local_udp_port, hA, hB]
  · unfold handle_udp_bind
    have hz : get_local_udp_port st2 src2 = (st2, 0) := by
      simp [get_local_udp_port, hA, hB]
    rw [hz]
    simp

/-- Concrete 64-entry LRU for the `udp_nat_lru_eviction` witness: local ports
1000..1063 bound to source ports 1..64, most recent first. -/
def c7St : UdpNatSt :=
  { datagramMap := (List.range 64).map (fun i => (1 + i, 1000 + i)),
    udpLru := (List.range 64).map (fun i => (1000 + i, 1 + i)) }

/-- Witness for `udp_nat_lru_eviction` at the concrete full LRU `c7St`: source
port 500 arrives unbound, the LRU tail `(1063, 64)` is evicted, and an empty
NAT binds source port 7 at the fresh local port 1100. -/
theorem udp_nat_lru_eviction_witness :
    c7St.udpLru.length = PORT_COUNT ∧
    dmapGet c7St.datagramMap 500 = 0 ∧
    c7St.udpLru.getLast? = some (1063, 64) ∧
    (get_local_udp_port c7St 500).2 = 1063 ∧
    dmapGet (get_local_udp_port c7St 500).1.datagramMap 500 = 1063 ∧
    dmapGet (get_local_udp_port c7St 500).1.datagramMap 64 = 0 ∧
    (get_local_udp_port c7St 500).1.udpLru.head? = some (1063, 500) ∧
    (get_local_udp_port c7St 500).1.udpLru.length = PORT_COUNT ∧
    handle_udp_bind c7St [(1063, { srcPort := 64, closed := false })] 500 2000 =
      some ((get_local_udp_port c7St 500).1, UdpAction.rebind 1063,
            workersSetSrc [(1063, { srcPort := 64, closed := false })] 1063 500) ∧
    (get_local_udp_port { datagramMap := [], udpLru := [] } 7).2 = 0 ∧
    handle_udp_bind { datagramMap := [], udpLru := [] } [] 7 1100 =
      some ({ datagramMap := dmapSet [] 7 1100, udpLru := lruPut [] 1100 7 PORT_COUNT },
            UdpAction.bindFresh 1100,
            (1100, { srcPort := 7, closed := false }) :: [].filter (fun p => p.1 != 1100)) := by
  have h := udp_nat_lru_eviction c7St [(1063, { srcPort := 64, closed := false })]
    500 2000 1063 64 64 { datagramMap := [], udpLru := [] } [] 7 1100
    (by decide) (by decide) (by decide) (by decide) (by decide) (by decide)
    (by decide) (by decide) (by decide) (by decide) (by decide)
  exact ⟨by decide, by decide, by decide, h.1, h.2.1, h.2.2.1, h.2.2.2.1,
    h.2.2.2.2.1, h.2.2.2.2.2.1, h.2.2.2.2.2.2.1, h.2.2.2.2.2.2.2⟩

/-- Do all emissions in the list carry the given destination and IPv4
identification (and is none of them an ARP frame)? -/
def allIpv4WithId (l : List IpEmis) (dst ident : Nat) : Bool :=
  l.all (fun e => match e with
    | IpEmis.ipv4 d i _ _ => d == dst && i == ident
    | IpEmis.arp => false)

theorem idGet_increase_self (st : EmitSt) (dst : Nat) :
    idGet (increase_ipv4_identification st dst) dst =
      (if idGet st dst + 1 ≤ maxU16 then idGet st dst + 1 else 0) :=
  dmapGet_set_self _ _ _

theorem idGet_increase_other (st : EmitSt) (dst d : Nat) (h : d ≠ dst) :
    idGet (increase_ipv4_identification st dst) d = idGet st d :=
  dmapGet_set_other _ _ _ _ h

theorem udpPiece_facts (mtu size n : Nat) (hmtu : 36 ≤ mtu) (h : n < size) :
    0 < udpPieceLen mtu size n ∧
    (udpPieceRemain mtu size n = 0 → size ≤ n + udpPieceLen mtu size n) ∧
    (0 < udpPieceRemain mtu size n → n + udpPieceLen mtu size n < size) := by
  unfold udpPieceLen udpPieceRemain
  simp only
  split <;> split <;> omega

theorem send_udp_loop_spec (dst mtu : Nat) (hmtu : 36 ≤ mtu) :
    ∀ (fuel size n : Nat) (st : EmitSt), size - n ≤ fuel → n < size →
    idGet (send_udp_loop st dst mtu size n).1 dst =
      (if idGet st dst + 1 ≤ maxU16 then idGet st dst + 1 else 0) ∧
    allIpv4WithId (send_udp_loop st dst mtu size n).2 dst (idGet st dst) = true ∧
    (∀ d, d ≠ dst → idGet (send_udp_loop st dst mtu size n).1 d = idGet st d) := by
  intro fuel
  induction fuel with
  | zero =>
      intro size n st hle hlt
      omega
  | succ fuel ih =>
      intro size n st hle hlt
      obtain ⟨hpos, hdone, hmore⟩ := udpPiece_facts mtu size n hmtu hlt
      rw [send_udp_loop, dif_pos hlt, dif_neg (by omega : ¬ udpPieceLen mtu size n = 0)]
      by_cases hrem : 0 < udpPieceRemain mtu size n
      · have hlt2 : n + udpPieceLen mtu size n < size := hmore hrem
        have hle2 : size - (n + udpPieceLen mtu size n) ≤ fuel := by omega
        obtain ⟨j1, j2, j3⟩ := ih size (n + udpPieceLen mtu size n) st hle2 hlt2
        simp only [if_pos hrem, ite_self]
        simp only [send_ipv4_more_fragment]
        refine ⟨j1, ?_, j3⟩
        simp only [allIpv4WithId, List.all_append] at j2 ⊢
        simp [j2, allIpv4WithId]
      · have hrem0 : udpPieceRemain mtu size n = 0 := by omega
        have hstop : ¬ (n + udpPieceLen mtu size n < size) := by
          have := hdone hrem0
          omega
        simp only [if_neg hrem]
        by_cases hn : n = 0
        · rw [if_pos hn]
          simp only [send_ipv4_with_transport]
          rw [send_udp_loop, dif_neg hstop]
          refine ⟨idGet_increase_self st dst, ?_, fun d hd => idGet_increase_other st dst d hd⟩
          simp [allIpv4WithId]
        · rw [if_neg hn]
          simp only [send_ipv4_last_fragment]
          rw [send_udp_loop, dif_neg hstop]
          refine ⟨idGet_increase_self st dst, ?_, fun d hd => idGet_increase_other st dst d hd⟩
          simp [allIpv4WithId]

/-- C8: `ipv4_identification[dst]` advances exactly once per emitted IPv4
datagram: `send_ipv4_with_transport` emits one non-fragmented datagram
carrying the current identification and then bumps it once (`checked_add(1)`
wrapping to 0 at `u16::MAX`); `send_ipv4_more_fragment` emits a fragment with
the current identification and does not bump; a whole `send_udp` call — one
datagram, fragmented or not — emits every piece with the same unchanged
identification and bumps it exactly once in total; identifications of other
destinations never change; and `send_arp_reply` touches no identification. -/
theorem ipv4_identification_once_per_datagram (st : EmitSt)
    (dst d2 mtu payloadLen off : Nat) (hmtu : 36 ≤ mtu) (hd2 : d2 ≠ dst) :
    (idGet (send_ipv4_with_transport st dst).1 dst =
      if idGet st dst + 1 ≤ maxU16 then idGet st dst + 1 else 0) ∧
    (send_ipv4_with_transport st dst).2 = [IpEmis.ipv4 dst (idGet st dst) false 0] ∧
    idGet (send_ipv4_with_transport st dst).1 d2 = idGet st d2 ∧
    (send_ipv4_more_fragment st dst off).1 = st ∧
    (send_ipv4_more_fragment st dst off).2 = [IpEmis.ipv4 dst (idGet st dst) true off] ∧
    (idGet (send_ipv4_last_fragment st dst off).1 dst =
      if idGet st dst + 1 ≤ maxU16 then idGet st dst + 1 else 0) ∧
    (send_ipv4_last_fragment st dst off).2 = [IpEmis.ipv4 dst (idGet st dst) false off] ∧
    (idGet (send_udp st dst mtu payloadLen).1 dst =
      if idGet st dst + 1 ≤ maxU16 then idGet st dst + 1 else 0) ∧
    allIpv4WithId (send_udp st dst mtu payloadLen).2 dst (idGet st dst) = true ∧
    idGet (send_udp st dst mtu payloadLen).1 d2 = idGet st d2 ∧
    send_arp_reply st = (st, [IpEmis.arp]) := by
  have hlt : 0 < 8 + payloadLen := by omega
  obtain ⟨j1, j2, j3⟩ :=
    send_udp_loop_spec dst mtu hmtu (8 + payloadLen) (8 + payloadLen) 0 st (by omega) hlt
  exact ⟨idGet_increase_self st dst, rfl, idGet_increase_other st dst d2 hd2, rfl, rfl,
    idGet_increase_self st dst, rfl, j1, j2, j3 d2 hd2, rfl⟩

/-- Witness for `ipv4_identification_once_per_datagram` at a concrete state:
destination 1 with current identification 0, a 200-byte UDP payload at
MTU 100 (three fragments), bystander destination 2. -/
theorem ipv4_identification_once_per_datagram_witness :
    (36 ≤ 100 ∧ (2 : Nat) ≠ 1) ∧
    idGet (send_udp ⟨[]⟩ 1 100 200).1 1 = 1 ∧
    allIpv4WithId (send_udp ⟨[]⟩ 1 100 200).2 1 0 = true ∧
    idGet (send_udp ⟨[]⟩ 1 100 200).1 2 = 0 ∧
    send_arp_reply ⟨[]⟩ = (⟨[]⟩, [IpEmis.arp]) := by
  have h := ipv4_identification_once_per_datagram ⟨[]⟩ 1 2 100 200 3
    (by decide) (by decide)
  refine ⟨⟨by decide, by decide⟩, ?_, ?_, ?_, h.2.2.2.2.2.2.2.2.2.2⟩
  · rw [h.2.2.2.2.2.2.2.1]
    decide
  · exact h.2.2.2.2.2.2.2.2.1
  · rw [h.2.2.2.2.2.2.2.2.2.1]
    decide

/-- The cache object `send_tcp_ack` works on: the existing per-flow cache, or
the fresh one `entry(key).or_insert_with` creates (capacity
`u16::MAX << wscale`, left edge at the current sequence). -/
def drainCache (st : FlowSt) : Queue :=
  match st.cache with
  | some c => c
  | none => { sequence := st.sequence, segs := [], capacity := maxU16 <<< st.wscale }

/-- The number of bytes one `send_tcp_ack` call drains from the queue: the
claim's `min(send_window - cache.len(), 65535, queue.len())` (0 when the send
window is 0), as computed at src/lib.rs lines 557-561. -/
def drainAmount (st : FlowSt) (q : List Nat) : Nat :=
  if 0 < st.sendWindow then
    min (min (st.sendWindow - (drainCache st).len) maxU16) q.length
  else 0

/-- Byte content of the flow's cache after a call. -/
def cacheData (st : FlowSt) : List Nat := (drainCache st).data

/-- Left edge of the flow's cache after a call. -/
def cacheSeq (st : FlowSt) : Nat := (drainCache st).sequence

/-- Length of the flow's cache after a call. -/
def cacheLen (st : FlowSt) : Nat := (drainCache st).len

/-- The payloads of the data segments in an emission list, in order. -/
def segPayloads (l : List Emis) : List (List Nat) :=
  l.filterMap (fun e => match e with
    | Emis.seg _ p => some p
    | _ => none)

/-- Are all the payload lengths at most `m`? -/
def allLe (l : List (List Nat)) (m : Nat) : Bool :=
  l.all (fun p => p.length ≤ m)

theorem Queue.append_ok (c : Queue) (p : List Nat) (now : Nat) (c1 : Queue)
    (h : c.append p now = Except.ok c1) :
    c1.data = c.data ++ p ∧ c1.sequence = c.sequence ∧ c1.capacity = c.capacity := by
  unfold Queue.append at h
  split at h
  · exact absurd h (by simp)
  · have hc1 : c1 = { c with segs := c.segs ++ [(p, now)] } := by
      cases h
      rfl
    subst hc1
    refine ⟨?_, rfl, rfl⟩
    simp [Queue.data]

theorem sendSegsAux_payloads (n : Nat) : ∀ (rem : List Nat) (st : FlowSt)
    (maxP base i : Nat), rem.length ≤ n → 0 < maxP →
    (segPayloads (sendSegsAux st maxP base rem i).2).flatten = rem ∧
    allLe (segPayloads (sendSegsAux st maxP base rem i).2) maxP = true := by
  induction n with
  | zero =>
      intro rem st maxP base i hlen hmp
      have hrem : rem = [] := by
        cases rem with
        | nil => rfl
        | cons a l => simp at hlen
      rw [sendSegsAux]
      simp [hrem, segPayloads, allLe]
  | succ n ihn =>
      intro rem st maxP base i hlen hmp
      by_cases hrem : rem = []
      · rw [sendSegsAux]
        simp [hrem, segPayloads, allLe]
      · rw [sendSegsAux]
        rw [dif_neg (by simp [hrem]; omega)]
        have hlen2 : (rem.drop maxP).length ≤ n := by
          have h2 : 0 < rem.length := List.length_pos.mpr hrem
          simp only [List.length_drop]
          omega
        obtain ⟨j1, j2⟩ := ihn (rem.drop maxP)
          (if wrapSubSrc (wrapAddSrc (wrapAddSrc base (i * maxP)) (List.take maxP rem).length)
                st.sequence ≤ MAX_U32_WINDOW_SIZE
           then { st with sequence :=
                    wrapAddSrc (wrapAddSrc base (i * maxP)) (List.take maxP rem).length }
           else st) maxP base (i + 1) hlen2 hmp
        constructor
        · simp only [segPayloads, List.filterMap_cons] at j1 ⊢
          simp only [List.flatten_cons, j1]
          exact List.take_append_drop maxP rem
        · simp only [segPayloads, List.filterMap_cons, allLe, List.all_cons] at j2 ⊢
          simp only [j2, Bool.and_true]
          simp [List.length_take]

theorem sendSegsAux_sequence (n : Nat) : ∀ (rem : List Nat) (st : FlowSt)
    (maxP base i : Nat), rem.length ≤ n → 0 < maxP →
    st.sequence = base + i * maxP →
    base + i * maxP + rem.length ≤ maxU32 →
    rem.length ≤ MAX_U32_WINDOW_SIZE →
    (sendSegsAux st maxP base rem i).1.sequence = base + i * maxP + rem.length := by
  induction n with
  | zero =>
      intro rem st maxP base i hlen hmp hseq hle hw
      have hrem : rem = [] := by
        cases rem with
        | nil => rfl
        | cons a l => simp at hlen
      rw [sendSegsAux]
      simp [hrem, hseq]
  | succ n ihn =>
      intro rem st maxP base i hlen hmp hseq hle hw
      by_cases hrem : rem = []
      · rw [sendSegsAux]
        simp [hrem, hseq]
      · rw [sendSegsAux]
        rw [dif_neg (by simp [hrem]; omega)]
        have hpos : 0 < rem.length := List.length_pos.mpr hrem
        have htk : (List.take maxP rem).length = min maxP rem.length := List.length_take _ _
        have hw1 : wrapAddSrc base (i * maxP) = base + i * maxP := by
          unfold wrapAddSrc
          rw [if_pos (by omega)]
        have hw2 : wrapAddSrc (base + i * maxP) (List.take maxP rem).length =
            base + i * maxP + (List.take maxP rem).length := by
          unfold wrapAddSrc
          rw [if_pos (by omega)]
        have hw3 : wrapSubSrc (base + i * maxP + (List.take maxP rem).length) st.sequence =
            (List.take maxP rem).length := by
          unfold wrapSubSrc
          rw [hseq, if_pos (by omega)]
          omega
        simp only [hw1, hw2, hw3]
        rw [if_pos (show (List.take maxP rem).length ≤ MAX_U32_WINDOW_SIZE by omega)]
        by_cases hbig : rem.length ≤ maxP
        · have hdrop : rem.drop maxP = [] := by
            apply List.eq_nil_of_length_eq_zero
            simp only [List.length_drop]
            omega
          rw [sendSegsAux]
          simp [hdrop, htk]
          omega
        · have hlen2 : (rem.drop maxP).length ≤ n := by
            simp only [List.length_drop]
            omega
          have htk2 : (List.take maxP rem).length = maxP := by omega
          have hsm : (i + 1) * maxP = i * maxP + maxP := Nat.succ_mul i maxP
          rw [htk2]
          have hrec := ihn (rem.drop maxP)
            { st with sequence := base + i * maxP + maxP } maxP base (i + 1) hlen2 hmp
            (by simp only [hsm]; omega)
            (by simp only [List.length_drop, hsm]; omega)
            (by simp only [List.length_drop]; omega)
          rw [hrec]
          simp only [List.length_drop, hsm]
          omega

theorem send_tcp_ack_via_drain (st : FlowSt) (now : Nat) :
    (send_tcp_ack st now).1 = (send_tcp_ack_drain st now).1 ∧
    (send_tcp_ack st now).2.2 = (send_tcp_ack_drain st now).2.2 ∧
    segPayloads (send_tcp_ack st now).2.1 = segPayloads (send_tcp_ack_drain st now).2.1 := by
  rcases hd : send_tcp_ack_drain st now with ⟨st1, out, ok⟩
  cases ok with
  | false => simp [send_tcp_ack, hd]
  | true =>
      simp only [send_tcp_ack, hd]
      split
      · refine ⟨rfl, rfl, ?_⟩
        simp [segPayloads, List.filterMap_append]
      · exact ⟨rfl, rfl, rfl⟩

/-- C4: one call of `send_tcp_ack` drains exactly
`drainAmount = min(send_window - cache.len(), 65535, queue.len())` bytes (0
when the send window is 0 or does not exceed the cache) from the queue,
appends them at the cache's right edge (left edge unchanged), emits them as
segments of at most `max_payload_size` bytes each whose payloads concatenate
to exactly the drained bytes, advances `sequence` by the drained amount
(every per-segment advance staying within the plausibility window under the
stated no-wrap hypotheses), and afterwards either the queue is empty or the
cache holds at least `min(send_window, 65535)` bytes. -/
theorem send_tcp_ack_drains_window (st : FlowSt) (now : Nat) (q : List Nat)
    (hq : st.queue = some q)
    (hcap : drainAmount st q ≤ (drainCache st).capacity - (drainCache st).len)
    (hmaxP : 0 < max_payload_size st)
    (hseqle : st.sequence + drainAmount st q ≤ maxU32)
    (hwle : drainAmount st q ≤ MAX_U32_WINDOW_SIZE) :
    (send_tcp_ack st now).2.2 = true ∧
    (send_tcp_ack st now).1.queue = some (q.drop (drainAmount st q)) ∧
    cacheData (send_tcp_ack st now).1 = cacheData st ++ q.take (drainAmount st q) ∧
    cacheSeq (send_tcp_ack st now).1 = cacheSeq st ∧
    (segPayloads (send_tcp_ack st now).2.1).flatten = q.take (drainAmount st q) ∧
    allLe (segPayloads (send_tcp_ack st now).2.1) (max_payload_size st) = true ∧
    (send_tcp_ack st now).1.sequence = st.sequence + drainAmount st q ∧
    (q.drop (drainAmount st q) = [] ∨
      min st.sendWindow maxU16 ≤ cacheLen (send_tcp_ack st now).1) := by
  obtain ⟨hv1, hv2, hv3⟩ := send_tcp_ack_via_drain st now
  by_cases hw : 0 < st.sendWindow
  · have hk : drainAmount st q =
        min (min (st.sendWindow - (drainCache st).len) maxU16) q.length := by
      unfold drainAmount
      rw [if_pos hw]
    by_cases hkpos : 0 < drainAmount st q
    · have hkq : drainAmount st q ≤ q.length := by
        rw [hk]
        omega
      have htklen : (q.take (drainAmount st q)).length = drainAmount st q := by
        rw [List.length_take]
        omega
      have happ : (drainCache st).append (q.take (drainAmount st q)) now =
          Except.ok { drainCache st with
            segs := (drainCache st).segs ++ [(q.take (drainAmount st q), now)] } := by
        unfold Queue.append
        rw [if_neg (by rw [htklen]; unfold Queue.len at hcap ⊢; omega)]
      have hdrain : send_tcp_ack_drain st now =
          ((sendSegsAux
              { st with queue := some (q.drop (drainAmount st q)),
                        cache := some { drainCache st with
                          segs := (drainCache st).segs ++ [(q.take (drainAmount st q), now)] } }
              (max_payload_size st) st.sequence (q.take (drainAmount st q)) 0).1,
           (sendSegsAux
              { st with queue := some (q.drop (drainAmount st q)),
                        cache := some { drainCache st with
                          segs := (drainCache st).segs ++ [(q.take (drainAmount st q), now)] } }
              (max_payload_size st) st.sequence (q.take (drainAmount st q)) 0).2, true) := by
        simp only [send_tcp_ack_drain, hq]
        rw [if_pos hw]
        rw [show (match st.cache with
              | some c => c
              | none => { sequence := st.sequence, segs := [],
                          capacity := maxU16 <<< st.wscale } : Queue) = drainCache st from rfl]
        rw [show min (min (st.sendWindow - (drainCache st).len) maxU16) q.length =
              drainAmount st q from hk.symm]
        rw [if_pos hkpos, happ]
        rfl
      set ST2 : FlowSt :=
        { st with queue := some (q.drop (drainAmount st q)),
                  cache := some { drainCache st with
                    segs := (drainCache st).segs ++ [(q.take (drainAmount st q), now)] } }
        with hST2
      have hpres := sendSegsAux_preserves ST2 (max_payload_size st) st.sequence
        (q.take (drainAmount st q)) 0
      have hpay := sendSegsAux_payloads (q.take (drainAmount st q)).length
        (q.take (drainAmount st q)) ST2 (max_payload_size st) st.sequence 0
        (le_refl _) hmaxP
      have hseq := sendSegsAux_sequence (q.take (drainAmount st q)).length
        (q.take (drainAmount st q)) ST2 (max_payload_size st) st.sequence 0
        (le_refl _) hmaxP (by simp [hST2]) (by rw [htklen]; simpa using hseqle)
        (by rw [htklen]; exact hwle)
      refine ⟨?_, ?_, ?_, ?_, ?_, ?_, ?_, ?_⟩
      · rw [hv2, hdrain]
      · rw [hv1, hdrain]
        simp only
        rw [hpres.2.1]
      · rw [hv1, hdrain]
        simp only [cacheData]
        have hc2 : drainCache (sendSegsAux ST2 (max_payload_size st) st.sequence
            (q.take (drainAmount st q)) 0).1 = drainCache ST2 := by
          unfold drainCache
          rw [hpres.2.2]
        rw [hc2]
        simp [hST2, drainCache, Queue.data]
      · rw [hv1, hdrain]
        simp only [cacheSeq]
        have hc2 : drainCache (sendSegsAux ST2 (max_payload_size st) st.sequence
            (q.take (drainAmount st q)) 0).1 = drainCache ST2 := by
          unfold drainCache
          rw [hpres.2.2]
        rw [hc2]
        simp [hST2, drainCache]
      · rw [hv3, hdrain]
        exact hpay.1
      · rw [hv3, hdrain]
        exact hpay.2
      · rw [hv1, hdrain]
        simp only
        rw [hseq]
        rw [htklen]
        omega
      · by_cases hqd : q.drop (drainAmount st q) = []
        · exact Or.inl hqd
        · right
          have hklt : drainAmount st q < q.length := by
            simpa using hqd
          rw [hv1, hdrain]
          simp only [cacheLen]
          have hc2 : drainCache (sendSegsAux ST2 (max_payload_size st) st.sequence
              (q.take (drainAmount st q)) 0).1 = drainCache ST2 := by
            unfold drainCache
            rw [hpres.2.2]
          rw [hc2]
          have hlen2 : (drainCache ST2).len = (drainCache st).len + drainAmount st q := by
            simp [hST2, drainCache, Queue.len, Queue.data, htklen]
          rw [hlen2]
          rw [hk] at hklt ⊢
          omega
    · have hk0 : drainAmount st q = 0 := by omega
      have hdrain : send_tcp_ack_drain st now =
          ({ st with cache := some (drainCache st) }, [], true) := by
        simp only [send_tcp_ack_drain, hq]
        rw [if_pos hw]
        rw [show (match st.cache with
              | some c => c
              | none => { sequence := st.sequence, segs := [],
                          capacity := maxU16 <<< st.wscale } : Queue) = drainCache st from rfl]
        rw [show min (min (st.sendWindow - (drainCache st).len) maxU16) q.length =
              drainAmount st q from hk.symm]
        rw [if_neg (by omega)]
      refine ⟨?_, ?_, ?_, ?_, ?_, ?_, ?_, ?_⟩
      · rw [hv2, hdrain]
      · rw [hv1, hdrain, hk0]
        simpa using hq
      · rw [hv1, hdrain, hk0]
        simp [cacheData, drainCache]
      · rw [hv1, hdrain]
        simp [cacheSeq, drainCache]
      · rw [hv3, hdrain, hk0]
        simp [segPayloads]
      · rw [hv3, hdrain]
        simp [segPayloads, allLe]
      · rw [hv1, hdrain, hk0]
        simp
      · have hcases : q.length = 0 ∨
            min (st.sendWindow - (drainCache st).len) maxU16 = 0 := by
          rw [hk] at hk0
          omega
        rcases hcases with hq0 | hmin0
        · left
          rw [hk0, List.drop_zero]
          exact List.eq_nil_of_length_eq_zero hq0
        · right
          rw [hv1, hdrain]
          simp only [cacheLen]
          have : drainCache { st with cache := some (drainCache st) } = drainCache st := by
            simp [drainCache]
          rw [this]
          omega
  · have hk0 : drainAmount st q = 0 := by
      unfold drainAmount
      rw [if_neg hw]
    have hdrain : send_tcp_ack_drain st now = (st, [], true) := by
      simp only [send_tcp_ack_drain, hq]
      rw [if_neg hw]
    refine ⟨?_, ?_, ?_, ?_, ?_, ?_, ?_, ?_⟩
    · rw [hv2, hdrain]
    · rw [hv1, hdrain, hk0]
      simpa using hq
    · rw [hv1, hdrain, hk0]
      simp
    · rw [hv1, hdrain]
    · rw [hv3, hdrain, hk0]
      simp [segPayloads]
    · rw [hv3, hdrain]
      simp [segPayloads, allLe]
    · rw [hv1, hdrain, hk0]
      rfl
    · right
      have hw0 : st.sendWindow = 0 := by omega
      rw [hw0]
      simp

/-- Concrete flow for the `send_tcp_ack_drains_window` witness: send window
100, peer MSS 2, five queued bytes, empty cache. -/
def c4St : FlowSt :=
  { mtu := 1500, sendWindow := 100, sendMss := some 2, sequence := 1000,
    wscale := 0, fin := false, cache := none, queue := some [9, 8, 7, 6, 5] }

/-- Witness for `send_tcp_ack_drains_window` at `c4St`: all five queued bytes
are drained and emitted, and `sequence` advances from 1000 to 1005. -/
theorem send_tcp_ack_drains_window_witness :
    (c4St.queue = some [9, 8, 7, 6, 5] ∧ 0 < max_payload_size c4St ∧
     drainAmount c4St [9, 8, 7, 6, 5] = 5) ∧
    (send_tcp_ack c4St 0).2.2 = true ∧
    (send_tcp_ack c4St 0).1.queue = some [] ∧
    (segPayloads (send_tcp_ack c4St 0).2.1).flatten = [9, 8, 7, 6, 5] ∧
    allLe (segPayloads (send_tcp_ack c4St 0).2.1) (max_payload_size c4St) = true ∧
    (send_tcp_ack c4St 0).1.sequence = 1005 := by
  have h := send_tcp_ack_drains_window c4St 0 [9, 8, 7, 6, 5]
    (by decide) (by decide) (by decide) (by decide) (by decide)
  refine ⟨⟨by decide, by decide, by decide⟩, h.1, ?_, ?_, h.2.2.2.2.2.1, ?_⟩
  · rw [h.2.1]
    decide
  · rw [h.2.2.2.2.1]
    decide
  · rw [h.2.2.2.2.2.2.1]
    decide

/-- Membership of `x` in the plain (non-wrapping) byte range `[r.1, r.2)`. -/
def inR (r : Nat × Nat) (x : Nat) : Prop := r.1 ≤ x ∧ x < r.2

/-- Membership of `x` in the union of a list of plain byte ranges. -/
def inRs (rs : List (Nat × Nat)) (x : Nat) : Prop := ∃ r ∈ rs, inR r x

/-- Distance between two sequence numbers is at most the plausibility window,
for plain (non-wrapping) values. -/
def near (a b : Nat) : Prop :=
  a ≤ b + MAX_U32_WINDOW_SIZE ∧ b ≤ a + MAX_U32_WINDOW_SIZE

/-- The claim-side modular semantics, following the spec's words: `x` lies in
the byte range `[r.1, r.2)` of 32-bit modular sequence space. -/
def inRMod (r : Nat × Nat) (x : Nat) : Prop :=
  (x + u32Mod - r.1) % u32Mod < (r.2 + u32Mod - r.1) % u32Mod

/-- Modular membership in a union of ranges. -/
def inRsMod (rs : List (Nat × Nat)) (x : Nat) : Prop := ∃ r ∈ rs, inRMod r x

/-- Modular distance between two sequence numbers is at most the plausibility
window in one of the two directions. -/
def nearMod (a b : Nat) : Prop :=
  (a + u32Mod - b) % u32Mod ≤ MAX_U32_WINDOW_SIZE ∨
  (b + u32Mod - a) % u32Mod ≤ MAX_U32_WINDOW_SIZE

/-- All endpoints appearing in a subtraction problem. -/
def epts (main : Nat × Nat) (subs : List (Nat × Nat)) : List Nat :=
  main.1 :: main.2 :: subs.flatMap (fun s => [s.1, s.2])

instance (r : Nat × Nat) (x : Nat) : Decidable (inR r x) :=
  inferInstanceAs (Decidable (r.1 ≤ x ∧ x < r.2))

instance (rs : List (Nat × Nat)) (x : Nat) : Decidable (inRs rs x) :=
  inferInstanceAs (Decidable (∃ r ∈ rs, inR r x))

instance (a b : Nat) : Decidable (near a b) :=
  inferInstanceAs (Decidable (a ≤ b + MAX_U32_WINDOW_SIZE ∧ b ≤ a + MAX_U32_WINDOW_SIZE))

instance (r : Nat × Nat) (x : Nat) : Decidable (inRMod r x) :=
  inferInstanceAs (Decidable ((x + u32Mod - r.1) % u32Mod < (r.2 + u32Mod - r.1) % u32Mod))

instance (rs : List (Nat × Nat)) (x : Nat) : Decidable (inRsMod rs x) :=
  inferInstanceAs (Decidable (∃ r ∈ rs, inRMod r x))

instance (a b : Nat) : Decidable (nearMod a b) :=
  inferInstanceAs (Decidable ((a + u32Mod - b) % u32Mod ≤ MAX_U32_WINDOW_SIZE ∨
    (b + u32Mod - a) % u32Mod ≤ MAX_U32_WINDOW_SIZE))

theorem wrapSubSrc_le_iff (a b : Nat) (ha : a ≤ maxU32) (hb : b ≤ maxU32)
    (h : near a b) : (wrapSubSrc a b ≤ MAX_U32_WINDOW_SIZE ↔ b ≤ a) := by
  unfold wrapSubSrc
  unfold near MAX_U32_WINDOW_SIZE maxU32 at *
  split <;> omega

theorem wrapSubSrc_exact (a b : Nat) (h : b ≤ a) : wrapSubSrc a b = a - b := by
  unfold wrapSubSrc
  rw [if_pos h]

theorem inRs_nil (x : Nat) : inRs [] x ↔ False := by
  simp [inRs]

theorem inRs_cons (r : Nat × Nat) (rs : List (Nat × Nat)) (x : Nat) :
    inRs (r :: rs) x ↔ (inR r x ∨ inRs rs x) := by
  constructor
  · rintro ⟨a, ha, hin⟩
    rcases List.mem_cons.mp ha with rfl | ha2
    · exact Or.inl hin
    · exact Or.inr ⟨a, ha2, hin⟩
  · rintro (h | ⟨a, ha, hin⟩)
    · exact ⟨r, List.mem_cons_self _ _, h⟩
    · exact ⟨a, List.mem_cons_of_mem _ ha, hin⟩

theorem disjoint_u32_range_cases (m s : Nat × Nat)
    (hm : m.1 ≤ m.2) (hs : s.1 ≤ s.2)
    (hb1 : m.1 ≤ maxU32) (hb2 : m.2 ≤ maxU32) (hb3 : s.1 ≤ maxU32) (hb4 : s.2 ≤ maxU32)
    (h00 : near m.1 s.1) (h11 : near m.2 s.2) (h01 : near m.1 s.2) :
    ∀ x, (inRs (disjoint_u32_range m s) x ↔ (inR m x ∧ ¬ inR s x)) ∧
    (∀ r ∈ disjoint_u32_range m s,
      r.1 ≤ r.2 ∧ (r.1 = m.1 ∨ r.1 = s.2) ∧ (r.2 = m.2 ∨ r.2 = s.1)) := by
  have e1 : wrapSubSrc s.1 m.1 ≤ MAX_U32_WINDOW_SIZE ↔ m.1 ≤ s.1 :=
    wrapSubSrc_le_iff s.1 m.1 hb3 hb1 ⟨h00.2, h00.1⟩
  have e2 : wrapSubSrc s.2 m.2 ≤ MAX_U32_WINDOW_SIZE ↔ m.2 ≤ s.2 :=
    wrapSubSrc_le_iff s.2 m.2 hb4 hb2 ⟨h11.2, h11.1⟩
  have e3 : wrapSubSrc s.2 m.1 ≤ MAX_U32_WINDOW_SIZE ↔ m.1 ≤ s.2 :=
    wrapSubSrc_le_iff s.2 m.1 hb4 hb1 ⟨h01.2, h01.1⟩
  have hsize : wrapSubSrc m.2 m.1 = m.2 - m.1 := wrapSubSrc_exact m.2 m.1 hm
  intro x
  unfold disjoint_u32_range
  simp only [hsize]
  split
  · next c1 =>
    have c1a : m.1 ≤ s.1 := e1.mp c1
    have hd1 : wrapSubSrc s.1 m.1 = s.1 - m.1 := wrapSubSrc_exact s.1 m.1 c1a
    split
    · next c2 =>
      have c2a : s.2 < m.2 := by
        rcases Nat.lt_or_ge s.2 m.2 with h | h
        · exact h
        · exact absurd (e2.mpr h) (by omega)
      constructor
      · simp only [inRs_cons, inRs_nil, inR, or_false]
        omega
      · intro r hr
        simp only [List.mem_cons, List.not_mem_nil, or_false] at hr
        rcases hr with rfl | rfl
        · exact ⟨by omega, Or.inl rfl, Or.inr rfl⟩
        · exact ⟨by omega, Or.inr rfl, Or.inl rfl⟩
    · next c2 =>
      have c2a : m.2 ≤ s.2 := e2.mp (by omega)
      split
      · next c4 =>
        have c4a : m.2 ≤ s.1 := by
          rw [hd1] at c4
          omega
        constructor
        · simp only [inRs_cons, inRs_nil, inR, or_false]
          omega
        · intro r hr
          simp only [List.mem_cons, List.not_mem_nil, or_false] at hr
          subst hr
          exact ⟨by omega, Or.inl rfl, Or.inl rfl⟩
      · next c4 =>
        have c4a : s.1 < m.2 := by
          rw [hd1] at c4
          omega
        constructor
        · simp only [inRs_cons, inRs_nil, inR, or_false]
          omega
        · intro r hr
          simp only [List.mem_cons, List.not_mem_nil, or_false] at hr
          subst hr
          exact ⟨by omega, Or.inl rfl, Or.inr rfl⟩
  · next c1 =>
    have c1a : s.1 < m.1 := by
      rcases Nat.lt_or_ge s.1 m.1 with h | h
      · exact h
      · exact absurd (e1.mpr h) c1
    split
    · next c2 =>
      have c2a : s.2 < m.2 := by
        rcases Nat.lt_or_ge s.2 m.2 with h | h
        · exact h
        · exact absurd (e2.mpr h) (by omega)
      split
      · next c3 =>
        have c3a : s.2 < m.1 := by
          rcases Nat.lt_or_ge s.2 m.1 with h | h
          · exact h
          · exact absurd (e3.mpr h) (by omega)
        constructor
        · simp only [inRs_cons, inRs_nil, inR, or_false]
          omega
        · intro r hr
          simp only [List.mem_cons, List.not_mem_nil, or_false] at hr
          subst hr
          exact ⟨by omega, Or.inl rfl, Or.inl rfl⟩
      · next c3 =>
        have c3a : m.1 ≤ s.2 := e3.mp (by omega)
        constructor
        · simp only [inRs_cons, inRs_nil, inR, or_false]
          omega
        · intro r hr
          simp only [List.mem_cons, List.not_mem_nil, or_false] at hr
          subst hr
          exact ⟨by omega, Or.inr rfl, Or.inl rfl⟩
    · next c2 =>
      have c2a : m.2 ≤ s.2 := e2.mp (by omega)
      constructor
      · simp only [inRs_nil, inR, false_iff]
        omega
      · intro r hr
        exact absurd hr (List.not_mem_nil r)

theorem inRs_flatMap (rs : List (Nat × Nat)) (f : Nat × Nat → List (Nat × Nat)) (x : Nat) :
    inRs (rs.flatMap f) x ↔ ∃ r ∈ rs, inRs (f r) x := by
  constructor
  · rintro ⟨a, ha, hin⟩
    rcases List.mem_flatMap.mp ha with ⟨r, hr, haf⟩
    exact ⟨r, hr, a, haf, hin⟩
  · rintro ⟨r, hr, a, haf, hin⟩
    exact ⟨a, List.mem_flatMap.mpr ⟨r, hr, haf⟩, hin⟩

theorem subtract_step_spec (ranges : List (Nat × Nat)) (s : Nat × Nat) (E : List Nat)
    (hs : s.1 ≤ s.2) (hs1 : s.1 ∈ E) (hs2 : s.2 ∈ E)
    (hE : ∀ a ∈ E, a ≤ maxU32)
    (hnear : ∀ a ∈ E, ∀ b ∈ E, near a b)
    (hranges : ∀ r ∈ ranges, r.1 ≤ r.2 ∧ r.1 ∈ E ∧ r.2 ∈ E) :
    (∀ x, inRs (ranges.flatMap (fun r => disjoint_u32_range r s)) x ↔
      (inRs ranges x ∧ ¬ inR s x)) ∧
    (∀ r ∈ ranges.flatMap (fun r => disjoint_u32_range r s),
      r.1 ≤ r.2 ∧ r.1 ∈ E ∧ r.2 ∈ E) := by
  constructor
  · intro x
    rw [inRs_flatMap]
    constructor
    · rintro ⟨r, hr, hin⟩
      obtain ⟨hrw, hr1, hr2⟩ := hranges r hr
      have h := disjoint_u32_range_cases r s hrw hs (hE _ hr1) (hE _ hr2) (hE _ hs1)
        (hE _ hs2) (hnear _ hr1 _ hs1) (hnear _ hr2 _ hs2) (hnear _ hr1 _ hs2) x
      have h2 := (h.1).mp hin
      exact ⟨⟨r, hr, h2.1⟩, h2.2⟩
    · rintro ⟨⟨r, hr, hin⟩, hnot⟩
      obtain ⟨hrw, hr1, hr2⟩ := hranges r hr
      have h := disjoint_u32_range_cases r s hrw hs (hE _ hr1) (hE _ hr2) (hE _ hs1)
        (hE _ hs2) (hnear _ hr1 _ hs1) (hnear _ hr2 _ hs2) (hnear _ hr1 _ hs2) x
      exact ⟨r, hr, (h.1).mpr ⟨hin, hnot⟩⟩
  · intro r2 hr2m
    rcases List.mem_flatMap.mp hr2m with ⟨r, hr, hmem⟩
    obtain ⟨hrw, hr1, hr2⟩ := hranges r hr
    have h := disjoint_u32_range_cases r s hrw hs (hE _ hr1) (hE _ hr2) (hE _ hs1)
      (hE _ hs2) (hnear _ hr1 _ hs1) (hnear _ hr2 _ hs2) (hnear _ hr1 _ hs2) 0
    obtain ⟨hw, he1, he2⟩ := h.2 r2 hmem
    refine ⟨hw, ?_, ?_⟩
    · rcases he1 with h1 | h1 <;> rw [h1]
      · exact hr1
      · exact hs2
    · rcases he2 with h1 | h1 <;> rw [h1]
      · exact hr2
      · exact hs1

theorem subtract_fold_spec (E : List Nat)
    (hE : ∀ a ∈ E, a ≤ maxU32)
    (hnear : ∀ a ∈ E, ∀ b ∈ E, near a b) :
    ∀ (sacks ranges : List (Nat × Nat)),
    (∀ s ∈ sacks, s.1 ≤ s.2 ∧ s.1 ∈ E ∧ s.2 ∈ E) →
    (∀ r ∈ ranges, r.1 ≤ r.2 ∧ r.1 ∈ E ∧ r.2 ∈ E) →
    ∀ x,
      inRs (sacks.foldl (fun rs sack => rs.flatMap (fun r => disjoint_u32_range r sack))
        ranges) x ↔ (inRs ranges x ∧ ¬ inRs sacks x) := by
  intro sacks
  induction sacks with
  | nil =>
    intro ranges _ _ x
    simp only [List.foldl_nil, inRs_nil, not_false_iff, and_true]
  | cons s rest ih =>
    intro ranges hsacks hranges x
    have hs := hsacks s (List.mem_cons_self _ _)
    have hrest : ∀ q ∈ rest, q.1 ≤ q.2 ∧ q.1 ∈ E ∧ q.2 ∈ E :=
      fun q hq => hsacks q (List.mem_cons_of_mem _ hq)
    have hstep := subtract_step_spec ranges s E hs.1 hs.2.1 hs.2.2 hE hnear hranges
    rw [List.foldl_cons]
    rw [ih _ hrest hstep.2 x, hstep.1 x, inRs_cons]
    tauto

/-- C5: amended statement.  For plain (non-wrapping) ranges whose endpoints all
lie within the 16 MiB plausibility window of each other, the union of the
ranges produced by successively applying `disjoint_u32_range` (the fold of
`retransmit_tcp_ack_without`) is exactly the main range minus the union of the
subtrahend ranges, pointwise.  The claim's modular version is refuted by
`disjoint_subtraction_counterexample`. -/
theorem disjoint_subtraction_amended (main : Nat × Nat) (subs : List (Nat × Nat))
    (hm : main.1 ≤ main.2)
    (hsubs : ∀ s ∈ subs, s.1 ≤ s.2)
    (hb : ∀ a ∈ epts main subs, a ≤ maxU32)
    (hnear : ∀ a ∈ epts main subs, ∀ b ∈ epts main subs, near a b) :
    ∀ x, inRs (subtractSacks main subs) x ↔ (inR main x ∧ ¬ inRs subs x) := by
  intro x
  unfold subtractSacks
  have hmem1 : main.1 ∈ epts main subs := List.mem_cons_self _ _
  have hmem2 : main.2 ∈ epts main subs :=
    List.mem_cons_of_mem _ (List.mem_cons_self _ _)
  have hsacks : ∀ s ∈ subs, s.1 ≤ s.2 ∧ s.1 ∈ epts main subs ∧ s.2 ∈ epts main subs := by
    intro s hsm
    refine ⟨hsubs s hsm, ?_, ?_⟩
    · exact List.mem_cons_of_mem _ (List.mem_cons_of_mem _
        (List.mem_flatMap.mpr ⟨s, hsm, by simp⟩))
    · exact List.mem_cons_of_mem _ (List.mem_cons_of_mem _
        (List.mem_flatMap.mpr ⟨s, hsm, by simp⟩))
  have hranges : ∀ r ∈ [main], r.1 ≤ r.2 ∧ r.1 ∈ epts main subs ∧ r.2 ∈ epts main subs := by
    intro r hrm
    rw [List.mem_singleton.mp hrm]
    exact ⟨hm, hmem1, hmem2⟩
  have h := subtract_fold_spec (epts main subs) hb hnear subs [main] hsacks hranges x
  rw [h, inRs_cons, inRs_nil]
  tauto

/-- Witness for C5's amended theorem: at main range [0, 3000) with SACK
[1000, 2000), every hypothesis holds concretely and the subtraction is exact
at the sample point 500. -/
theorem disjoint_subtraction_amended_witness :
    (∀ a ∈ epts (0, 3000) [(1000, 2000)], ∀ b ∈ epts (0, 3000) [(1000, 2000)], near a b) ∧
    (inRs (subtractSacks (0, 3000) [(1000, 2000)]) 500 ↔
      (inR (0, 3000) 500 ∧ ¬ inRs [(1000, 2000)] 500)) :=
  ⟨by decide, disjoint_subtraction_amended (0, 3000) [(1000, 2000)] (by decide) (by decide)
    (by decide) (by decide) 500⟩

/-- C5: the claim as stated, over modular 32-bit sequence space, is false.  The
main range [4294967286, 0) wraps; subtracting the SACK [4294967295, 0) must
remove the byte 4294967295, but the code returns the main range unchanged
(its wrap tests misclassify the wrapped boundary).  All endpoints lie within
the plausibility window of each other, so the claim's hypothesis holds. -/
theorem disjoint_subtraction_counterexample :
    (nearMod 4294967286 0 ∧ nearMod 4294967286 4294967295 ∧ nearMod 4294967295 0 ∧
      nearMod 0 0 ∧ nearMod 0 4294967295 ∧ nearMod 4294967286 4294967286) ∧
    ¬ (inRsMod (subtractSacks (4294967286, 0) [(4294967295, 0)]) 4294967295 ↔
       (inRMod (4294967286, 0) 4294967295 ∧ ¬ inRsMod [(4294967295, 0)] 4294967295)) := by
  decide

end Pcap2Socks
